/-
Verification of the ScrapeSmart field-detection and extraction engine
(src/server/ml-scraper.ts, class MLWebScraper) against its specification.

The TypeScript engine is shallowly embedded: each private method of
MLWebScraper becomes a Lean function of the same name.  The external
collaborators are abstracted exactly at the boundaries the spec draws:

* cheerio (the off-the-shelf HTML/CSS-selector library) is abstracted as a
  `Doc` structure whose fields are the five cheerio operations the engine
  uses: `$(<selector>)` (query), `$el.find(<selector>)` (find),
  `$el.text()` (text), `$el.attr(<name>)` (attr) and `$el.is(<selector>)`
  (isMatch).  Elements are node identifiers (Nat).
* the JS regex engine is abstracted as `rmatch pattern text`, the list of
  matches `text.match(/pattern/)` returns (`[]` standing for `null`).
  The regex source literals of initializeSemanticRules are kept verbatim
  as the pattern keys.
* axios is abstracted as the `Except JsError String` outcome of the awaited
  `axios.get` call, and `URL(url).hostname` as an explicit argument.

JS-specific semantics are modelled explicitly: `a || b` on strings is
`jsOrStr` (empty string is falsy), a `Map`/object keyed by strings is an
insertion-ordered association list whose `set` keeps the original position
of an existing key, `Array.prototype.sort` is a stable sort, and
`Math.round` is Mathlib's `round` (half-up) on exact rationals.
-/
import Mathlib

set_option linter.unusedVariables false
set_option allowUnsafeReducibility true
attribute [local semireducible] Rat.mul Rat.inv Rat.add Rat.sub

/-! ## JS string / object semantics helpers -/

/-- JS whitespace (`\s`) for the character range the engine meets (the
unicode space classes are irrelevant to the selector and sample strings
involved). -/
def isJsWs (c : Char) : Bool :=
  c = ' ' ∨ c = '\t' ∨ c = '\n' ∨ c = '\r' ∨ c = '\x0b' ∨ c = '\x0c'

/-- JS `s.trim()`: strip `\s` from both ends (structural, so that concrete
documents evaluate inside the kernel). -/
def jsTrim (s : String) : String :=
  String.mk (((s.data.dropWhile isJsWs).reverse.dropWhile isJsWs).reverse)

/-- Char-list prefix test (structural). -/
def listIsPre : List Char → List Char → Bool
  | [], _ => true
  | _ :: _, [] => false
  | p :: ps, c :: cs => p == c && listIsPre ps cs

/-- JS `s.startsWith(p)`. -/
def jsStartsWith (s p : String) : Bool := listIsPre p.data s.data

/-- Char-list substring-occurrence test (structural). -/
def subOccurs : List Char → List Char → Bool
  | [], sub => listIsPre sub []
  | c :: cs, sub => listIsPre sub (c :: cs) || subOccurs cs sub

/-- JS `s.toLowerCase()` (the strings involved are ASCII). -/
def jsToLower (s : String) : String := String.mk (s.data.map Char.toLower)

/-- JS `s.slice(n)` / `replace` of a length-`n` known leading part. -/
def jsDrop (s : String) (n : Nat) : String := String.mk (s.data.drop n)

/-- JS `s.substring(0, n)`. -/
def jsTake (s : String) (n : Nat) : String := String.mk (s.data.take n)

/-- JS `s.length` (code points; the strings involved need no surrogate
distinction). -/
def jsLength (s : String) : Nat := s.data.length

/-- JS `a || b` for strings: the empty string is falsy. -/
def jsOrStr (a b : String) : String := if a = "" then b else a

/-- JS `s.includes(sub)`. -/
def jsIncludes (s sub : String) : Bool := subOccurs s.data sub.data

/-- JS object / `Map` assignment `m[k] = v`: insertion-ordered, an existing
key keeps its original position. -/
def jsObjSet {α : Type} (m : List (String × α)) (k : String) (v : α) : List (String × α) :=
  if m.any (fun p => p.1 = k) then m.map (fun p => if p.1 = k then (k, v) else p)
  else m ++ [(k, v)]

/-- JS object / `Map` lookup `m[k]` / `m.get(k)`. -/
def jsObjGet {α : Type} (m : List (String × α)) (k : String) : Option α :=
  (m.find? (fun p => p.1 = k)).map Prod.snd

/-! ## The cheerio / regex boundary -/

/-- A parsed document, abstracted at the cheerio API surface the engine
uses.  Elements are opaque node ids. -/
structure Doc where
  query : String → List Nat
  find : Nat → String → List Nat
  text : Nat → String
  attr : Nat → String → Option String
  isMatch : Nat → String → Bool
  rmatch : String → String → List String

/-! ## Data model (shared/schema.ts) -/

/-- `DetectedField` of shared/schema.ts.  `confidence` is the integer the
engine stores (every stored confidence is integral: ML confidences are
`Math.round`ed, semantic and learned ones are integer arithmetic). -/
structure DetectedField where
  id : String
  name : String
  type : String
  selectors : List String
  elements : Nat
  sampleData : List String
  confidence : ℤ
  selected : Bool
deriving DecidableEq

/-- `PageInfo` of shared/schema.ts. -/
structure PageInfo where
  url : String
  title : String
  domain : String
  description : String
  type : String
deriving DecidableEq

/-- `AdvancedScrapingOptions` of ml-scraper.ts.  The JS number
`confidenceThreshold` is modelled as an exact rational. -/
structure AdvancedScrapingOptions where
  useNLP : Bool
  enablePatternLearning : Bool
  semanticAnalysis : Bool
  confidenceThreshold : ℚ
deriving DecidableEq

/-! ## Semantic rules (initializeSemanticRules) -/

/-- The 'price' entry of `initializeSemanticRules`; the regex literals are
kept as opaque keys for the abstracted regex engine (braces written as
\x7b/\x7d). -/
def priceRule : String × List String :=
  ("price",
   ["/\\$[\\d,]+\\.?\\d*/gi",
    "/\\b\\d+[\\.,]\\d+\\s*(USD|EUR|GBP|dollars?|euros?|pounds?)\\b/gi",
    "/\\b(price|cost|amount|fee):\\s*[\\$€£]?[\\d,]+\\.?\\d*/gi"])

/-- The 'email' entry of `initializeSemanticRules`. -/
def emailRule : String × List String :=
  ("email",
   ["/\\b[A-Za-z0-9._%+-]+@[A-Za-z0-9.-]+\\.[A-Z|a-z]\x7b2,\x7d\\b/gi"])

/-- The 'phone' entry of `initializeSemanticRules`. -/
def phoneRule : String × List String :=
  ("phone",
   ["/\\b\\+?[\\d\\s\\-\\(\\)]\x7b10,\x7d\\b/gi",
    "/\\b\\d\x7b3\x7d[-.\\s]?\\d\x7b3\x7d[-.\\s]?\\d\x7b4\x7d\\b/gi"])

/-- The 'date' entry of `initializeSemanticRules`. -/
def dateRule : String × List String :=
  ("date",
   ["/\\b\\d\x7b1,2\x7d[\\/\\-\\.]\\d\x7b1,2\x7d[\\/\\-\\.]\\d\x7b2,4\x7d\\b/gi",
    "/\\b\\d\x7b4\x7d[\\/\\-\\.]\\d\x7b1,2\x7d[\\/\\-\\.]\\d\x7b1,2\x7d\\b/gi",
    "/\\b(Jan|Feb|Mar|Apr|May|Jun|Jul|Aug|Sep|Oct|Nov|Dec)[a-z]*\\s+\\d\x7b1,2\x7d,?\\s+\\d\x7b4\x7d\\b/gi"])

/-- The insertion-ordered entries of `this.semanticRules`. -/
def semanticRules : List (String × List String) :=
  [priceRule, emailRule, phoneRule, dateRule]

/-- `this.semanticRules.get(type) || []`. -/
def lookupSemanticRules (t : String) : List String :=
  ((semanticRules.find? (fun r => r.1 = t)).map Prod.snd).getD []

/-- `$('body').text()`: concatenated text of the matched elements. -/
def bodyText (doc : Doc) : String :=
  String.join ((doc.query "body").map doc.text)

/-! ## Confidence scoring -/

/-- `calculateMLConfidence` (ml-scraper.ts lines 316-328), exact rational
arithmetic in place of JS floats. -/
def calculateMLConfidence (foundElements totalContainers : Nat)
    (elementPriority patternWeight : ℚ) : ℚ :=
  let coverage : ℚ := (foundElements : ℚ) / (totalContainers : ℚ)
  let baseScore := coverage * 100
  let priorityBoost := elementPriority * 20
  let patternBoost := patternWeight * 15
  min 95 (max 60 (baseScore + priorityBoost + patternBoost))

/-- The `typeBoosts` record of `calculateSemanticConfidence`. -/
def typeBoosts : List (String × ℤ) :=
  [("price", 10), ("email", 15), ("phone", 12), ("date", 8)]

/-- `typeBoosts[type] || 0` (all present boosts are non-zero, so JS `||`
coincides with the lookup default). -/
def typeBoostOf (t : String) : ℤ :=
  ((typeBoosts.find? (fun p => p.1 = t)).map Prod.snd).getD 0

/-- `calculateSemanticConfidence` (ml-scraper.ts lines 330-340). -/
def calculateSemanticConfidence (matchCount : Nat) (t : String) : ℤ :=
  let baseConfidence : ℤ := min 90 (60 + (matchCount : ℤ) * 5)
  min 95 (baseConfidence + typeBoostOf t)

/-! ## Smart field names -/

/-- The `typeNames` record of `generateSmartFieldName`. -/
def typeNames : List (String × String) :=
  [("heading", "Headings"), ("price", "Prices"), ("title", "Titles"),
   ("description", "Descriptions"), ("link", "Links"), ("image", "Images"),
   ("date", "Dates"), ("location", "Locations"), ("email", "Email Addresses"),
   ("phone", "Phone Numbers"), ("country", "Countries"), ("product", "Products")]

/-- `${type.charAt(0).toUpperCase()}${type.slice(1)}s`. -/
def capitalizePlural (t : String) : String :=
  match t.data with
  | [] => "s"
  | c :: rest => String.mk (c.toUpper :: rest) ++ "s"

/-- `generateSmartFieldName` (ml-scraper.ts lines 342-368). -/
def generateSmartFieldName (t : String) (sampleData : List String) : String :=
  let fallback := jsOrStr (((typeNames.find? (fun p => p.1 = t)).map Prod.snd).getD "")
    (capitalizePlural t)
  match sampleData.head? with
  | none => fallback
  | some s0 =>
    let sample := jsToLower s0
    if t = "heading" ∧ jsIncludes sample "country" then "Country Names"
    else if t = "heading" ∧ jsIncludes sample "product" then "Product Names"
    else if t = "price" ∧ jsIncludes sample "$" then "USD Prices"
    else if t = "description" ∧ 100 < jsLength sample then "Long Descriptions"
    else fallback

/-! ## Value extraction -/

/-- The shared value rule of `extractValuesFromContainers` /
`extractValuesFromElements`: image → `src || data-src || alt || ''`,
link → `href || text().trim()`, default → `text().trim()`. -/
def extractValueC (doc : Doc) (t : String) (e : Nat) : String :=
  if t = "image" then
    jsOrStr (jsOrStr ((doc.attr e "src").getD "") ((doc.attr e "data-src").getD ""))
      ((doc.attr e "alt").getD "")
  else if t = "link" then
    jsOrStr ((doc.attr e "href").getD "") (jsTrim (doc.text e))
  else jsTrim (doc.text e)

/-- `extractValuesFromContainers` (ml-scraper.ts lines 256-288): per
container, push each non-empty value of `container.find(selector)`, then a
final (redundant) non-empty filter. -/
def extractValuesFromContainers (doc : Doc) (containers : List Nat)
    (selector : String) (t : String) : List String :=
  (containers.foldl (fun values c =>
    values ++ ((doc.find c selector).map (extractValueC doc t)).filter (fun v => v ≠ "")) []
    ).filter (fun v => v ≠ "")

/-- `extractValuesFromElements` (ml-scraper.ts lines 290-314). -/
def extractValuesFromElements (doc : Doc) (elements : List Nat) (t : String) : List String :=
  (elements.map (extractValueC doc t)).filter (fun v => v ≠ "")

/-! ## Structural pattern analysis -/

/-- One entry of the `elementPatterns` catalog of `analyzeContainerPattern`. -/
structure ElementPattern where
  selector : String
  type : String
  priority : ℚ
deriving DecidableEq

/-- The `elementPatterns` catalog (ml-scraper.ts lines 151-160). -/
def elementPatterns : List ElementPattern :=
  [⟨"h1, h2, h3, h4, h5, h6", "heading", 9/10⟩,
   ⟨".price, [class*=\"price\"], [data-price]", "price", 95/100⟩,
   ⟨".title, [class*=\"title\"]:not(title)", "title", 88/100⟩,
   ⟨".description, [class*=\"desc\"]", "description", 82/100⟩,
   ⟨"a[href]", "link", 75/100⟩,
   ⟨"img[src]", "image", 7/10⟩,
   ⟨".date, [class*=\"date\"]", "date", 85/100⟩,
   ⟨".location, [class*=\"location\"]", "location", 8/10⟩]

/-- The loop body of `analyzeContainerPattern`: accumulator is
(fields so far, fieldCounter). -/
def containerStep (doc : Doc) (containers : List Nat) (patSelector : String)
    (patWeight : ℚ) (acc : List DetectedField × Nat) (ep : ElementPattern) :
    List DetectedField × Nat :=
  let elementsInFirst := match containers.head? with
    | some c => doc.find c ep.selector
    | none => []
  if 0 < elementsInFirst.length then
    let allValues := extractValuesFromContainers doc containers ep.selector ep.type
    if max 2 ((containers.length : ℚ) * (3/10)) ≤ (allValues.length : ℚ) then
      let confidence := calculateMLConfidence allValues.length containers.length
        ep.priority patWeight
      (acc.1 ++ [{
        id := "ml_" ++ ep.type ++ "_" ++ toString acc.2,
        name := generateSmartFieldName ep.type allValues,
        type := ep.type,
        selectors := [patSelector ++ " " ++ ep.selector],
        elements := allValues.length,
        sampleData := allValues.take 5,
        confidence := round confidence,
        selected := decide (75 < confidence) }], acc.2 + 1)
    else acc
  else acc

/-- `analyzeContainerPattern` (ml-scraper.ts lines 141-190). -/
def analyzeContainerPattern (doc : Doc) (containers : List Nat) (patSelector : String)
    (patWeight : ℚ) (fieldCounter : Nat) : List DetectedField :=
  (elementPatterns.foldl (containerStep doc containers patSelector patWeight)
    ([], fieldCounter)).1

/-- One entry of the `containerPatterns` catalog of `analyzeStructuralPatterns`. -/
structure ContainerPattern where
  selector : String
  weight : ℚ
  type : String
deriving DecidableEq

/-- The `containerPatterns` catalog (ml-scraper.ts lines 119-127). -/
def containerPatterns : List ContainerPattern :=
  [⟨".country, [class*=\"country\"]", 95/100, "country-data"⟩,
   ⟨".product, [class*=\"product\"]", 9/10, "product-data"⟩,
   ⟨".item, [class*=\"item\"]", 85/100, "item-data"⟩,
   ⟨".card, [class*=\"card\"]", 8/10, "card-data"⟩,
   ⟨"article, .article", 85/100, "article-data"⟩,
   ⟨".listing, [class*=\"listing\"]", 88/100, "listing-data"⟩,
   ⟨"tr:has(td)", 92/100, "table-data"⟩]

/-- The loop body of `analyzeStructuralPatterns`. -/
def structuralStep (doc : Doc) (acc : List DetectedField × Nat) (pat : ContainerPattern) :
    List DetectedField × Nat :=
  let containers := doc.query pat.selector
  if 2 ≤ containers.length then
    let patternFields := analyzeContainerPattern doc containers pat.selector pat.weight acc.2
    (acc.1 ++ patternFields, acc.2 + patternFields.length)
  else acc

/-- `analyzeStructuralPatterns` (ml-scraper.ts lines 114-139): a container
pattern is probed for fields when it matches at least 2 elements. -/
def analyzeStructuralPatterns (doc : Doc) : List DetectedField :=
  (containerPatterns.foldl (structuralStep doc) ([], 1)).1

/-! ## Semantic pattern analysis -/

/-- The `Set<string>` of trimmed matches: insertion-ordered, deduplicated. -/
def addDistinctTrimmed (acc : List String) (ms : List String) : List String :=
  ms.foldl (fun a m => if jsTrim m ∈ a then a else a ++ [jsTrim m]) acc

/-- All distinct trimmed matches of a type's patterns over the body text. -/
def semanticMatchesFor (doc : Doc) (patterns : List String) : List String :=
  patterns.foldl (fun acc p => addDistinctTrimmed acc (doc.rmatch p (bodyText doc))) []

/-- The loop body of `analyzeSemanticPatterns`. -/
def semanticStep (doc : Doc) (acc : List DetectedField × Nat) (rule : String × List String) :
    List DetectedField × Nat :=
  let found := semanticMatchesFor doc rule.2
  if 0 < found.length then
    let sampleData := found.take 10
    let confidence := calculateSemanticConfidence found.length rule.1
    (acc.1 ++ [{
      id := "semantic_" ++ rule.1 ++ "_" ++ toString acc.2,
      name := generateSmartFieldName rule.1 sampleData,
      type := rule.1,
      selectors := ["text-pattern:" ++ rule.1],
      elements := found.length,
      sampleData := sampleData,
      confidence := confidence,
      selected := decide (80 < confidence) }], acc.2 + 1)
  else acc

/-- `analyzeSemanticPatterns` (ml-scraper.ts lines 192-227). -/
def analyzeSemanticPatterns (doc : Doc) : List DetectedField :=
  (semanticRules.foldl (semanticStep doc) ([], 1)).1

/-! ## Pattern memory -/

/-- `applyLearnedPatterns` (ml-scraper.ts lines 229-254).  The per-domain
cache lookup `this.patternCache.get(new URL(url).hostname)` is abstracted
as the `cachedPatterns` argument, `Date.now()` as `nowMs`. -/
def applyLearnedPatterns (doc : Doc) (cachedPatterns : Option (List DetectedField))
    (nowMs : Nat) : List DetectedField :=
  match cachedPatterns with
  | none => []
  | some pats =>
    pats.foldl (fun fields pattern =>
      let elements := match pattern.selectors.head? with
        | some sel => doc.query sel
        | none => []
      if 0 < elements.length then
        let values := extractValuesFromElements doc elements pattern.type
        if 0 < values.length then
          fields ++ [{ pattern with
            id := "learned_" ++ pattern.type ++ "_" ++ toString nowMs,
            elements := values.length,
            sampleData := values.take 5,
            confidence := min (pattern.confidence + 5) 98 }]
        else fields
      else fields) []

/-- `cacheSuccessfulPatterns` (ml-scraper.ts lines 390-397), as the value
stored for the domain (`none` = the cache is left unchanged). -/
def cacheSuccessfulPatterns (fields : List DetectedField) : Option (List DetectedField) :=
  let highConfidenceFields := fields.filter (fun f => 85 < f.confidence)
  if 0 < highConfidenceFields.length then some highConfidenceFields else none

/-! ## Field optimization -/

/-- The grouping key `${field.type}_${field.name}` of `optimizeFieldSelection`. -/
def fieldKey (f : DetectedField) : String := f.type ++ "_" ++ f.name

/-- One step of the `uniqueFields` Map construction: `set` only when the key
is absent or the new confidence is strictly higher; an existing key keeps
its position. -/
def updateUnique : List (String × DetectedField) → DetectedField → List (String × DetectedField)
  | [], f => [(fieldKey f, f)]
  | (k, g) :: rest, f =>
    if k = fieldKey f then
      (if g.confidence < f.confidence then (k, f) else (k, g)) :: rest
    else (k, g) :: updateUnique rest f

/-- Stable insertion (descending confidence). -/
def insertDescBy (f : DetectedField) : List DetectedField → List DetectedField
  | [] => [f]
  | g :: rest =>
    if g.confidence ≤ f.confidence then f :: g :: rest else g :: insertDescBy f rest

/-- `Array.prototype.sort((a, b) => b.confidence - a.confidence)`: a stable
descending sort by confidence. -/
def sortDescBy : List DetectedField → List DetectedField
  | [] => []
  | f :: rest => insertDescBy f (sortDescBy rest)

/-- `optimizeFieldSelection` (ml-scraper.ts lines 370-388). -/
def optimizeFieldSelection (fields : List DetectedField) (threshold : ℚ) : List DetectedField :=
  let kept := fields.filter (fun f => threshold * 100 ≤ (f.confidence : ℚ))
  let uniqueFields := kept.foldl updateUnique []
  (sortDescBy (uniqueFields.map Prod.snd)).take 20

/-! ## Page-level analysis and the fetch boundary -/

/-- A thrown JS error.  The code only ever constructs `Error` (`generic`);
`fetchTyped` models the distinguishable `FetchError` class the spec
postulates (no such class exists anywhere in the repository). -/
inductive JsError where
  | generic (message : String)
  | fetchTyped (message : String)
deriving DecidableEq

/-- JS string interpolation `${error}` of an Error object. -/
def errToString : JsError → String
  | .generic m => "Error: " ++ m
  | .fetchTyped m => "FetchError: " ++ m

/-- `fetchPage` (ml-scraper.ts lines 88-101): the awaited `axios.get`
outcome is the argument; any failure is re-thrown as a generic `Error`
with a "Failed to fetch page" message. -/
def fetchPage (axiosResult : Except JsError String) : Except JsError String :=
  match axiosResult with
  | .ok data => .ok data
  | .error e => .error (.generic ("Failed to fetch page: " ++ errToString e))

/-- `extractPageInfo` (ml-scraper.ts lines 103-112); `new URL(url).hostname`
abstracted as `hostname`. -/
def extractPageInfo (doc : Doc) (url hostname : String) : PageInfo :=
  let title := jsOrStr
    (jsOrStr (jsTrim (String.join ((doc.query "title").map doc.text)))
      (match (doc.query "h1").head? with
       | some e => jsTrim (doc.text e)
       | none => ""))
    "Untitled Page"
  let firstAttrContent := fun (sel : String) =>
    match (doc.query sel).head? with
    | some e => (doc.attr e "content").getD ""
    | none => ""
  let description := jsOrStr
    (jsOrStr (jsOrStr (firstAttrContent "meta[name=\"description\"]")
        (firstAttrContent "meta[property=\"og:description\"]"))
      (jsTake (match (doc.query "p").head? with
        | some e => jsTrim (doc.text e)
        | none => "") 200))
    "AI-powered analysis complete"
  { url := url, title := title, domain := hostname, description := description,
    type := "ml-analyzed" }

/-- `analyzePageWithML` (ml-scraper.ts lines 51-86).  `parse` is
`cheerio.load`, `axiosResult` the awaited fetch, `cachedPatterns` the
pattern-memory entry for the url's domain, `nowMs` is `Date.now()`.  The
try/catch wraps the single throwing step (the fetch) into an
"ML Analysis failed" generic `Error`. -/
def analyzePageWithML (axiosResult : Except JsError String) (parse : String → Doc)
    (url hostname : String) (cachedPatterns : Option (List DetectedField)) (nowMs : Nat)
    (options : AdvancedScrapingOptions) : Except JsError (PageInfo × List DetectedField) :=
  match fetchPage axiosResult with
  | .error e => .error (.generic ("ML Analysis failed: " ++ errToString e))
  | .ok html =>
    let doc := parse html
    let pageInfo := extractPageInfo doc url hostname
    let structuralFields := analyzeStructuralPatterns doc
    let semanticFields := if options.semanticAnalysis then analyzeSemanticPatterns doc else []
    let learnedFields := if options.enablePatternLearning then
      applyLearnedPatterns doc cachedPatterns nowMs else []
    let allFields := structuralFields ++ semanticFields ++ learnedFields
    let optimizedFields := optimizeFieldSelection allFields options.confidenceThreshold
    .ok (pageInfo, optimizedFields)

/-! ## Extraction dispatcher (analyzeDataStructure) -/

/-- The chosen structural regime, with the containers the container-based
branch returns alongside its pattern string. -/
inductive StructurePattern where
  | containerBased (containers : List Nat)
  | tableBased
  | listBased
  | individual
deriving DecidableEq

/-- The `containerSelectors` list of `analyzeDataStructure`. -/
def containerSelectors : List String :=
  [".country", ".product", ".item", ".card", "article"]

/-- The `for` loop of `analyzeDataStructure`: the first selector matching at
least 3 elements wins. -/
def findContainers (doc : Doc) : List String → Option (List Nat)
  | [] => none
  | sel :: rest =>
    let containers := doc.query sel
    if 3 ≤ containers.length then some containers else findContainers doc rest

/-- `analyzeDataStructure` (ml-scraper.ts lines 426-450). -/
def analyzeDataStructure (doc : Doc) : StructurePattern :=
  match findContainers doc containerSelectors with
  | some containers => .containerBased containers
  | none =>
    if 0 < (doc.query "table").length ∧ 3 < (doc.query "tr").length then .tableBased
    else if 5 < (doc.query "ul li, ol li").length then .listBased
    else .individual

/-! ## Record extraction -/

/-- A record value: a single string or the list a multi-match field yields. -/
inductive RecVal where
  | str (v : String)
  | list (vs : List String)
deriving DecidableEq

/-- Whether a record value holds at least one non-empty string. -/
def recValNonEmpty : RecVal → Bool
  | .str v => v ≠ ""
  | .list vs => vs.any (fun v => v ≠ "")

/-- Index of the last whitespace character of a list, if any. -/
def lastWsIdx (l : List Char) : Option Nat :=
  (List.range l.length).foldl
    (fun acc i => if isJsWs ((l.get? i).getD 'x') then some i else acc) none

/-- `selector.replace(/^[^:]+\s+/, '')`: the greedy backtracking match of
`^[^:]+\s+` removes everything up to and including the last whitespace
character that lies inside the maximal colon-free prefix (requiring at
least one character before it); without such a match the selector is
unchanged. -/
def cleanSelectorOf (s : String) : String :=
  let cs := s.data
  let colonFree := cs.takeWhile (fun c => c ≠ ':')
  match lastWsIdx colonFree with
  | some k => if 1 ≤ k then String.mk (cs.drop (k + 1)) else s
  | none => s

/-- The per-field value collection of `extractFromContainers`
(ml-scraper.ts lines 459-491): semantic selectors run the type's regexes
over the container's text, DOM selectors collect non-empty type-specific
values of `container.find(cleanSelector)`. -/
def containerFieldValues (doc : Doc) (container : Nat) (f : DetectedField) : List String :=
  f.selectors.foldl (fun values selector =>
    if jsStartsWith selector "text-pattern:" then
      let t := jsDrop selector 13
      let patterns := lookupSemanticRules t
      values ++ patterns.foldl (fun acc p => acc ++ doc.rmatch p (doc.text container)) []
    else
      let cleanSelector := cleanSelectorOf selector
      values ++ ((doc.find container cleanSelector).map (extractValueC doc f.type)).filter
        (fun v => v ≠ "")) []

/-- `extractFromContainers` (ml-scraper.ts lines 452-504). -/
def extractFromContainers (doc : Doc) (containers : List Nat) (fields : List DetectedField) :
    List (List (String × RecVal)) :=
  containers.foldl (fun results container =>
    let record := fields.foldl (fun record f =>
      let values := containerFieldValues doc container f
      if 0 < values.length then
        jsObjSet record f.name
          (if values.length = 1 then RecVal.str (values.headD "") else RecVal.list values)
      else record) []
    if 0 < record.length then results ++ [record] else results) []

/-- `extractFromTables` (ml-scraper.ts lines 506-533). -/
def extractFromTables (doc : Doc) (fields : List DetectedField) :
    List (List (String × String)) :=
  match (doc.query "table").head? with
  | none => []
  | some table =>
    let headers := (doc.find table "th").map (fun el => jsTrim (doc.text el))
    (doc.find table "tbody tr, tr").foldl (fun results row =>
      if 0 < (doc.find row "th").length then results
      else
        let cells := doc.find row "td"
        let record := cells.enum.foldl (fun record cell =>
          let headerName := jsOrStr ((headers.get? cell.1).getD "")
            ("Column " ++ toString (cell.1 + 1))
          let value := jsTrim (doc.text cell.2)
          if value ≠ "" then jsObjSet record headerName value else record) []
        if 0 < record.length then results ++ [record] else results) []

/-- `extractFromLists` (ml-scraper.ts lines 535-572). -/
def extractFromLists (doc : Doc) (fields : List DetectedField) :
    List (List (String × String)) :=
  (doc.query "ul li, ol li").foldl (fun results item =>
    let record := fields.foldl (fun record f =>
      f.selectors.foldl (fun record selector =>
        let cleanSelector := cleanSelectorOf selector
        let elements := if jsIncludes selector " " then doc.find item cleanSelector
          else if doc.isMatch item cleanSelector then [item] else []
        elements.foldl (fun record el =>
          let value := if f.type = "image" then
              jsOrStr ((doc.attr el "src").getD "") ((doc.attr el "alt").getD "")
            else if f.type = "link" then
              jsOrStr ((doc.attr el "href").getD "") (jsTrim (doc.text el))
            else jsTrim (doc.text el)
          if value ≠ "" then jsObjSet record f.name value else record) record) record) []
    if 0 < record.length then results ++ [record] else results) []

/-- The per-field value collection of `extractIndividually`
(ml-scraper.ts lines 578-611): semantic selectors push the raw matches over
the body text, DOM selectors push non-empty type-specific values of the
whole-document query (image here prefers `src` then `alt`). -/
def fieldValuesIndividually (doc : Doc) (f : DetectedField) : List String :=
  f.selectors.foldl (fun values selector =>
    if jsStartsWith selector "text-pattern:" then
      let t := jsDrop selector 13
      let patterns := lookupSemanticRules t
      values ++ patterns.foldl (fun acc p => acc ++ doc.rmatch p (bodyText doc)) []
    else
      values ++ ((doc.query selector).map (fun el =>
        if f.type = "image" then
          jsOrStr ((doc.attr el "src").getD "") ((doc.attr el "alt").getD "")
        else if f.type = "link" then
          jsOrStr ((doc.attr el "href").getD "") (jsTrim (doc.text el))
        else jsTrim (doc.text el))).filter (fun v => v ≠ "")) []

/-- `extractIndividually` (ml-scraper.ts lines 574-632): collect each
field's values, then zip positionally; a record keeps index `i`'s value of
every field whose list has a truthy entry there, and is emitted only when
at least one field contributed. -/
def extractIndividually (doc : Doc) (fields : List DetectedField) :
    List (List (String × String)) :=
  let fd := fields.foldl (fun (acc : List (String × List String) × Nat) f =>
    let values := fieldValuesIndividually doc f
    (jsObjSet acc.1 f.name values, max acc.2 values.length)) ([], 0)
  (List.range fd.2).foldl (fun results i =>
    let rh := fields.foldl (fun (rh : List (String × String) × Bool) f =>
      match jsObjGet fd.1 f.name with
      | some values =>
        match values.get? i with
        | some v => if v ≠ "" then (jsObjSet rh.1 f.name v, true) else rh
        | none => rh
      | none => rh) ([], false)
    if rh.2 then results ++ [rh.1] else results) []

/-- `executeAdvancedExtraction` (ml-scraper.ts lines 410-424). -/
def executeAdvancedExtraction (doc : Doc) (selectedFields : List DetectedField) :
    List (List (String × RecVal)) :=
  match analyzeDataStructure doc with
  | .containerBased containers => extractFromContainers doc containers selectedFields
  | .tableBased => (extractFromTables doc selectedFields).map
      (fun r => r.map (fun e => (e.1, RecVal.str e.2)))
  | .listBased => (extractFromLists doc selectedFields).map
      (fun r => r.map (fun e => (e.1, RecVal.str e.2)))
  | .individual => (extractIndividually doc selectedFields).map
      (fun r => r.map (fun e => (e.1, RecVal.str e.2)))

/-! ## Generic fold lemmas -/

/-- Members of a fold's accumulated list are inherited or satisfy the
property each step's appended elements satisfy. -/
theorem foldl_proj_mem_inv {α β γ : Type} (P : α → Prop) (proj : γ → List α)
    (step : γ → β → γ) (l : List β)
    (h : ∀ acc, ∀ b ∈ l, ∀ x, x ∈ proj (step acc b) → x ∈ proj acc ∨ P x) :
    ∀ acc x, x ∈ proj (l.foldl step acc) → x ∈ proj acc ∨ P x := by
  induction l with
  | nil => intro acc x hx; exact Or.inl hx
  | cons b bs ih =>
    intro acc x hx
    rcases ih (fun acc b hb => h acc b (List.mem_cons_of_mem _ hb)) (step acc b) x hx with
      h1 | h2
    · exact h acc b (List.mem_cons_self _ _) x h1
    · exact Or.inr h2

/-! ## C1: the extraction dispatcher's regime priority -/

theorem findContainers_eq_none_iff (doc : Doc) :
    ∀ sels, findContainers doc sels = none ↔ ∀ sel ∈ sels, (doc.query sel).length < 3 := by
  intro sels
  induction sels with
  | nil => simp [findContainers]
  | cons s rest ih =>
    simp only [findContainers]
    split
    · next hlen =>
      simp only [List.mem_cons]
      constructor
      · intro h; cases h
      · intro h
        exact absurd hlen (by have := h s (Or.inl rfl); omega)
    · next hlen =>
      rw [ih]
      constructor
      · intro h sel hsel
        rcases List.mem_cons.mp hsel with rfl | hm
        · omega
        · exact h sel hm
      · intro h sel hsel
        exact h sel (List.mem_cons_of_mem _ hsel)

theorem findContainers_isSome_iff (doc : Doc) (sels : List String) :
    (∃ cs, findContainers doc sels = some cs) ↔
      ∃ sel ∈ sels, 3 ≤ (doc.query sel).length := by
  constructor
  · intro ⟨cs, hcs⟩
    by_contra h
    push_neg at h
    have : findContainers doc sels = none := (findContainers_eq_none_iff doc sels).mpr h
    rw [this] at hcs; cases hcs
  · intro ⟨sel, hsel, hlen⟩
    cases h : findContainers doc sels with
    | some cs => exact ⟨cs, rfl⟩
    | none =>
      have := (findContainers_eq_none_iff doc sels).mp h sel hsel
      omega

/-- C1: `analyzeDataStructure` classifies the document into exactly one
regime, in priority order: container-based when one of '.country',
'.product', '.item', '.card', 'article' matches at least 3 elements; else
table-based when there is at least one table and strictly more than 3 table
rows in total; else list-based when the 'ul li, ol li' count is strictly
greater than 5; else the individual fallback. -/
theorem C1_regime_priority (doc : Doc) :
    ((∃ cs, analyzeDataStructure doc = .containerBased cs) ↔
      ∃ sel ∈ containerSelectors, 3 ≤ (doc.query sel).length) ∧
    (analyzeDataStructure doc = .tableBased ↔
      ((∀ sel ∈ containerSelectors, (doc.query sel).length < 3) ∧
       1 ≤ (doc.query "table").length ∧ 3 < (doc.query "tr").length)) ∧
    (analyzeDataStructure doc = .listBased ↔
      ((∀ sel ∈ containerSelectors, (doc.query sel).length < 3) ∧
       ¬(1 ≤ (doc.query "table").length ∧ 3 < (doc.query "tr").length) ∧
       5 < (doc.query "ul li, ol li").length)) ∧
    (analyzeDataStructure doc = .individual ↔
      ((∀ sel ∈ containerSelectors, (doc.query sel).length < 3) ∧
       ¬(1 ≤ (doc.query "table").length ∧ 3 < (doc.query "tr").length) ∧
       ¬(5 < (doc.query "ul li, ol li").length))) := by
  cases h : findContainers doc containerSelectors with
  | some cs =>
    have hres : analyzeDataStructure doc = .containerBased cs := by
      unfold analyzeDataStructure; rw [h]
    have hsome : ∃ sel ∈ containerSelectors, 3 ≤ (doc.query sel).length :=
      (findContainers_isSome_iff doc containerSelectors).mp ⟨cs, h⟩
    have hnotall : ¬ ∀ sel ∈ containerSelectors, (doc.query sel).length < 3 := by
      intro hall
      rcases hsome with ⟨sel, hsel, hlen⟩
      have := hall sel hsel; omega
    rw [hres]
    refine ⟨⟨fun _ => hsome, fun _ => ⟨cs, rfl⟩⟩, ?_, ?_, ?_⟩ <;>
      simp [hnotall]
  | none =>
    have hall : ∀ sel ∈ containerSelectors, (doc.query sel).length < 3 :=
      (findContainers_eq_none_iff doc containerSelectors).mp h
    have hnone : ¬ ∃ sel ∈ containerSelectors, 3 ≤ (doc.query sel).length := by
      intro ⟨sel, hsel, hlen⟩
      have := hall sel hsel; omega
    have hres : analyzeDataStructure doc =
        (if 0 < (doc.query "table").length ∧ 3 < (doc.query "tr").length then .tableBased
         else if 5 < (doc.query "ul li, ol li").length then .listBased
         else .individual) := by
      unfold analyzeDataStructure; rw [h]
    rw [hres]
    split_ifs with h1 h2
    · refine ⟨⟨fun ⟨cs, hcs⟩ => (nomatch hcs), fun hex => absurd hex hnone⟩, ?_, ?_, ?_⟩
      · exact iff_of_true rfl ⟨hall, by omega, h1.2⟩
      · exact iff_of_false (by simp) (fun ⟨_, hneg, _⟩ => hneg ⟨by omega, h1.2⟩)
      · exact iff_of_false (by simp) (fun ⟨_, hneg, _⟩ => hneg ⟨by omega, h1.2⟩)
    · refine ⟨⟨fun ⟨cs, hcs⟩ => (nomatch hcs), fun hex => absurd hex hnone⟩, ?_, ?_, ?_⟩
      · exact iff_of_false (by simp) (fun ⟨_, htab1, htab2⟩ => h1 ⟨by omega, htab2⟩)
      · exact iff_of_true rfl ⟨hall, fun hc => h1 ⟨by omega, hc.2⟩, h2⟩
      · exact iff_of_false (by simp) (fun ⟨_, _, hneg⟩ => hneg h2)
    · refine ⟨⟨fun ⟨cs, hcs⟩ => (nomatch hcs), fun hex => absurd hex hnone⟩, ?_, ?_, ?_⟩
      · exact iff_of_false (by simp) (fun ⟨_, htab1, htab2⟩ => h1 ⟨by omega, htab2⟩)
      · exact iff_of_false (by simp) (fun ⟨_, _, hl⟩ => h2 hl)
      · exact iff_of_true rfl ⟨hall, fun hc => h1 ⟨by omega, hc.2⟩, h2⟩

/-! ## C5: the dynamic coverage floor of analyzeContainerPattern -/

/-- A document with 10 matching containers (ids 0-9) in which the probed
heading sub-element yields exactly 2 non-empty values. -/
def exDoc5 : Doc where
  query := fun _ => []
  find := fun c sel => if sel = "h1, h2, h3, h4, h5, h6" ∧ c < 2 then [100 + c] else []
  text := fun e => if 100 ≤ e then "Val" else ""
  attr := fun _ _ => none
  isMatch := fun _ _ => false
  rmatch := fun _ _ => []

theorem containerStep_mem (doc : Doc) (containers : List Nat) (patSelector : String)
    (patWeight : ℚ) (acc : List DetectedField × Nat) (ep : ElementPattern)
    (x : DetectedField) (hx : x ∈ (containerStep doc containers patSelector patWeight acc ep).1) :
    x ∈ acc.1 ∨ max 2 ((containers.length : ℚ) * (3/10)) ≤ (x.elements : ℚ) := by
  simp only [containerStep] at hx
  repeat split at hx
  all_goals first
    | exact Or.inl hx
    | (rcases List.mem_append.mp hx with h | h
       · exact Or.inl h
       · rcases List.mem_singleton.mp h with rfl
         exact Or.inr (by assumption))

/-- C5: a container-scoped field candidate is proposed only when the number
of non-empty collected values is at least `max(2, containerCount × 0.3)`
(the field's `elements` is exactly that count); in particular, with 10
matching containers and a probed sub-element yielding exactly 2 non-empty
values, no field is produced. -/
theorem C5_coverage_floor :
    (∀ (doc : Doc) (containers : List Nat) (patSelector : String) (patWeight : ℚ)
      (fieldCounter : Nat) (f : DetectedField),
      f ∈ analyzeContainerPattern doc containers patSelector patWeight fieldCounter →
      max 2 ((containers.length : ℚ) * (3/10)) ≤ (f.elements : ℚ)) ∧
    analyzeContainerPattern exDoc5 (List.range 10) ".item, [class*=\"item\"]" (85/100) 1
      = [] := by
  constructor
  · intro doc containers patSelector patWeight fieldCounter f hf
    have step := fun acc (b : ElementPattern) (_ : b ∈ elementPatterns) x hx =>
      containerStep_mem doc containers patSelector patWeight acc b x hx
    rcases foldl_proj_mem_inv _ Prod.fst _ elementPatterns step ([], fieldCounter) f hf with
      h | h
    · cases h
    · exact h
  · decide

/-! ## C6: the container-discovery retention threshold -/

/-- A document in which the '.product' catalog selector matches exactly 2
elements (ids 0 and 1), each containing a heading. -/
def exDoc6 : Doc where
  query := fun sel => if sel = ".product, [class*=\"product\"]" then [0, 1] else []
  find := fun c sel => if sel = "h1, h2, h3, h4, h5, h6" ∧ c ≤ 1 then [10 + c] else []
  text := fun e => if e = 10 then "Product One" else if e = 11 then "Product Two" else ""
  attr := fun _ _ => none
  isMatch := fun _ _ => false
  rmatch := fun _ _ => []

/-- The field `analyzeStructuralPatterns` derives from the 2-element
'.product' pattern of `exDoc6`. -/
def c6Field : DetectedField :=
  { id := "ml_heading_1", name := "Product Names", type := "heading",
    selectors := [".product, [class*=\"product\"] h1, h2, h3, h4, h5, h6"],
    elements := 2, sampleData := ["Product One", "Product Two"],
    confidence := 95, selected := true }

/-- C6 counterexample: a catalog selector matching exactly 2 elements DOES
contribute a field candidate (the code's retention threshold is 2, not the
claimed 3). -/
theorem C6_counterexample :
    (exDoc6.query ".product, [class*=\"product\"]").length = 2 ∧
    analyzeStructuralPatterns exDoc6 = [c6Field] := by
  constructor
  · decide
  · decide

/-- C6 (amended): during container discovery a candidate container selector
is retained for field probing only if it matches at least 2 elements on the
page; every produced field candidate stems from a catalog pattern whose
selector matched at least 2 elements. -/
theorem C6_amended_retention (doc : Doc) (f : DetectedField)
    (hf : f ∈ analyzeStructuralPatterns doc) :
    ∃ pat ∈ containerPatterns, 2 ≤ (doc.query pat.selector).length ∧
      ∃ k, f ∈ analyzeContainerPattern doc (doc.query pat.selector) pat.selector
        pat.weight k := by
  have step : ∀ acc, ∀ pat ∈ containerPatterns, ∀ x,
      x ∈ (structuralStep doc acc pat).1 → x ∈ acc.1 ∨
      (∃ pat ∈ containerPatterns, 2 ≤ (doc.query pat.selector).length ∧
        ∃ k, x ∈ analyzeContainerPattern doc (doc.query pat.selector) pat.selector
          pat.weight k) := by
    intro acc pat hpat x hx
    simp only [structuralStep] at hx
    split at hx
    · next hlen =>
      rcases List.mem_append.mp hx with h | h
      · exact Or.inl h
      · exact Or.inr ⟨pat, hpat, hlen, acc.2, h⟩
    · exact Or.inl hx
  rcases foldl_proj_mem_inv _ Prod.fst _ containerPatterns step ([], 1) f hf with h | h
  · cases h
  · exact h

/-- C6 amended-claim witness at the concrete 2-element document. -/
theorem C6_amended_witness :
    ∃ pat ∈ containerPatterns, 2 ≤ (exDoc6.query pat.selector).length ∧
      ∃ k, c6Field ∈ analyzeContainerPattern exDoc6 (exDoc6.query pat.selector)
        pat.selector pat.weight k :=
  C6_amended_retention exDoc6 c6Field (by decide)

/-! ## C4: confidence clamps -/

theorem mlConfidence_bounds (found total : Nat) (p w : ℚ) :
    60 ≤ calculateMLConfidence found total p w ∧ calculateMLConfidence found total p w ≤ 95 := by
  unfold calculateMLConfidence
  exact ⟨le_min (by norm_num) (le_max_left _ _), min_le_left _ _⟩

theorem round_bounds {q : ℚ} (h1 : 60 ≤ q) (h2 : q ≤ 95) :
    60 ≤ round q ∧ round q ≤ 95 := by
  rw [round_eq]
  constructor
  · exact Int.le_floor.mpr (by push_cast; linarith)
  · have : ⌊q + 1/2⌋ < 96 := Int.floor_lt.mpr (by push_cast; linarith)
    omega

theorem containerStep_conf (doc : Doc) (containers : List Nat) (patSelector : String)
    (patWeight : ℚ) (acc : List DetectedField × Nat) (ep : ElementPattern)
    (x : DetectedField) (hx : x ∈ (containerStep doc containers patSelector patWeight acc ep).1) :
    x ∈ acc.1 ∨ (60 ≤ x.confidence ∧ x.confidence ≤ 95) := by
  simp only [containerStep] at hx
  repeat split at hx
  all_goals first
    | exact Or.inl hx
    | (rcases List.mem_append.mp hx with h | h
       · exact Or.inl h
       · rcases List.mem_singleton.mp h with rfl
         exact Or.inr (round_bounds (mlConfidence_bounds _ _ _ _).1
           (mlConfidence_bounds _ _ _ _).2))

theorem analyzeContainerPattern_conf (doc : Doc) (containers : List Nat)
    (patSelector : String) (patWeight : ℚ) (fieldCounter : Nat) (f : DetectedField)
    (hf : f ∈ analyzeContainerPattern doc containers patSelector patWeight fieldCounter) :
    60 ≤ f.confidence ∧ f.confidence ≤ 95 := by
  have step := fun acc (b : ElementPattern) (_ : b ∈ elementPatterns) x hx =>
    containerStep_conf doc containers patSelector patWeight acc b x hx
  rcases foldl_proj_mem_inv _ Prod.fst _ elementPatterns step ([], fieldCounter) f hf with
    h | h
  · cases h
  · exact h

theorem typeBoost_bounds (t : String) : 0 ≤ typeBoostOf t ∧ typeBoostOf t ≤ 15 := by
  simp only [typeBoostOf, typeBoosts, List.find?]
  repeat' split
  all_goals simp_all

theorem semConfidence_bounds (m : Nat) (t : String) (hm : 1 ≤ m) :
    60 ≤ calculateSemanticConfidence m t ∧ calculateSemanticConfidence m t ≤ 95 := by
  obtain ⟨hb0, hb15⟩ := typeBoost_bounds t
  simp only [calculateSemanticConfidence]
  have hm' : (1:ℤ) ≤ (m:ℤ) := by exact_mod_cast hm
  omega

theorem semanticStep_conf (doc : Doc) (acc : List DetectedField × Nat)
    (rule : String × List String) (x : DetectedField)
    (hx : x ∈ (semanticStep doc acc rule).1) :
    x ∈ acc.1 ∨ (60 ≤ x.confidence ∧ x.confidence ≤ 95) := by
  simp only [semanticStep] at hx
  split at hx
  · next hlen =>
    rcases List.mem_append.mp hx with h | h
    · exact Or.inl h
    · rcases List.mem_singleton.mp h with rfl
      exact Or.inr (semConfidence_bounds _ _ hlen)
  · exact Or.inl hx

theorem analyzeSemanticPatterns_conf (doc : Doc) (f : DetectedField)
    (hf : f ∈ analyzeSemanticPatterns doc) :
    60 ≤ f.confidence ∧ f.confidence ≤ 95 := by
  have step := fun acc (b : String × List String) (_ : b ∈ semanticRules) x hx =>
    semanticStep_conf doc acc b x hx
  rcases foldl_proj_mem_inv _ Prod.fst _ semanticRules step ([], 1) f hf with h | h
  · cases h
  · exact h

theorem applyLearnedPatterns_conf (doc : Doc) (cache : List DetectedField) (nowMs : Nat)
    (f : DetectedField) (hc : ∀ g ∈ cache, 85 < g.confidence)
    (hf : f ∈ applyLearnedPatterns doc (some cache) nowMs) :
    60 ≤ f.confidence ∧ f.confidence ≤ 98 := by
  unfold applyLearnedPatterns at hf
  have step : ∀ (acc : List DetectedField), ∀ b ∈ cache, ∀ x,
      x ∈ (fun fields pattern =>
        let elements := match pattern.selectors.head? with
          | some sel => doc.query sel
          | none => []
        if 0 < elements.length then
          let values := extractValuesFromElements doc elements pattern.type
          if 0 < values.length then
            fields ++ [{ pattern with
              id := "learned_" ++ pattern.type ++ "_" ++ toString nowMs,
              elements := values.length,
              sampleData := values.take 5,
              confidence := min (pattern.confidence + 5) 98 }]
          else fields
        else fields) acc b → x ∈ acc ∨ (60 ≤ x.confidence ∧ x.confidence ≤ 98) := by
    intro acc b hb x hx
    simp only at hx
    repeat split at hx
    all_goals first
      | exact Or.inl hx
      | (rcases List.mem_append.mp hx with h | h
         · exact Or.inl h
         · rcases List.mem_singleton.mp h with rfl
           refine Or.inr ?_
           have := hc b hb
           simp only
           omega)
  rcases foldl_proj_mem_inv _ id _ cache step [] f hf with h | h
  · cases h
  · exact h

/-- A pattern-memory entry whose single field has confidence 95, and a
document on which its selector still matches. -/
def exCacheL : List DetectedField :=
  [{ id := "f1", name := "Titles", type := "title", selectors := ["h1"], elements := 1,
     sampleData := ["T"], confidence := 95, selected := true }]

def exDocL : Doc where
  query := fun sel => if sel = "h1" then [0] else []
  find := fun _ _ => []
  text := fun e => if e = 0 then "T" else ""
  attr := fun _ _ => none
  isMatch := fun _ _ => false
  rmatch := fun _ _ => []

/-- C4: every candidate field generated by a detection run has
`60 ≤ confidence ≤ 98`: structural и semantic candidates (the general
heuristics) are clamped to `[60, 95]`, pattern-memory replays of a cache
holding only >85-confidence fields (the invariant `cacheSuccessfulPatterns`
maintains) stay in `[60, 98]`, and only such replays can reach 98. -/
theorem C4_confidence_clamp :
    (∀ (doc : Doc) (f : DetectedField), f ∈ analyzeStructuralPatterns doc →
      60 ≤ f.confidence ∧ f.confidence ≤ 95) ∧
    (∀ (doc : Doc) (f : DetectedField), f ∈ analyzeSemanticPatterns doc →
      60 ≤ f.confidence ∧ f.confidence ≤ 95) ∧
    (∀ (doc : Doc) (cache : List DetectedField) (nowMs : Nat) (f : DetectedField),
      (∀ g ∈ cache, 85 < g.confidence) → f ∈ applyLearnedPatterns doc (some cache) nowMs →
      60 ≤ f.confidence ∧ f.confidence ≤ 98) ∧
    (∀ (fields stored : List DetectedField),
      cacheSuccessfulPatterns fields = some stored → ∀ g ∈ stored, 85 < g.confidence) ∧
    (∃ f ∈ applyLearnedPatterns exDocL (some exCacheL) 0, f.confidence = 98) := by
  refine ⟨?_, ?_, ?_, ?_, ?_⟩
  · intro doc f hf
    have step : ∀ acc, ∀ pat ∈ containerPatterns, ∀ x,
        x ∈ (structuralStep doc acc pat).1 → x ∈ acc.1 ∨
        (60 ≤ x.confidence ∧ x.confidence ≤ 95) := by
      intro acc pat hpat x hx
      simp only [structuralStep] at hx
      split at hx
      · rcases List.mem_append.mp hx with h | h
        · exact Or.inl h
        · exact Or.inr (analyzeContainerPattern_conf doc _ _ _ _ x h)
      · exact Or.inl hx
    rcases foldl_proj_mem_inv _ Prod.fst _ containerPatterns step ([], 1) f hf with h | h
    · cases h
    · exact h
  · intro doc f hf
    exact analyzeSemanticPatterns_conf doc f hf
  · intro doc cache nowMs f hc hf
    exact applyLearnedPatterns_conf doc cache nowMs f hc hf
  · intro fields stored hst g hg
    simp only [cacheSuccessfulPatterns] at hst
    split at hst
    · cases hst
      exact of_decide_eq_true (List.mem_filter.mp hg).2
    · cases hst
  · decide

/-! ## Optimizer lemmas (C2, C3) -/

theorem insertDescBy_perm (f : DetectedField) (l : List DetectedField) :
    (insertDescBy f l).Perm (f :: l) := by
  induction l with
  | nil => simp [insertDescBy]
  | cons g rest ih =>
    simp only [insertDescBy]
    split
    · exact List.Perm.refl _
    · exact ((ih.cons g).trans (List.Perm.swap f g rest))

theorem sortDescBy_perm (l : List DetectedField) : (sortDescBy l).Perm l := by
  induction l with
  | nil => simp [sortDescBy]
  | cons f rest ih =>
    exact (insertDescBy_perm f (sortDescBy rest)).trans (ih.cons f)

theorem mem_sortDescBy {x : DetectedField} {l : List DetectedField} :
    x ∈ sortDescBy l ↔ x ∈ l := (sortDescBy_perm l).mem_iff

theorem insertDescBy_sorted (f : DetectedField) (l : List DetectedField)
    (hl : l.Pairwise (fun a b => b.confidence ≤ a.confidence)) :
    (insertDescBy f l).Pairwise (fun a b => b.confidence ≤ a.confidence) := by
  induction l with
  | nil => simp [insertDescBy]
  | cons g rest ih =>
    simp only [insertDescBy]
    split
    · next hgf =>
      refine List.Pairwise.cons ?_ hl
      intro x hx
      rcases List.mem_cons.mp hx with rfl | hx
      · exact hgf
      · exact le_trans ((List.pairwise_cons.mp hl).1 x hx) hgf
    · next hgf =>
      have hrest := (List.pairwise_cons.mp hl).2
      refine List.Pairwise.cons ?_ (ih hrest)
      intro x hx
      rcases List.mem_cons.mp ((insertDescBy_perm f rest).mem_iff.mp hx) with rfl | h
      · omega
      · exact (List.pairwise_cons.mp hl).1 x h

theorem sortDescBy_sorted (l : List DetectedField) :
    (sortDescBy l).Pairwise (fun a b => b.confidence ≤ a.confidence) := by
  induction l with
  | nil => simp [sortDescBy]
  | cons f rest ih => exact insertDescBy_sorted f (sortDescBy rest) ih

theorem sortDescBy_eq_self (l : List DetectedField)
    (hl : l.Pairwise (fun a b => b.confidence ≤ a.confidence)) :
    sortDescBy l = l := by
  induction l with
  | nil => rfl
  | cons f rest ih =>
    have hrest := (List.pairwise_cons.mp hl).2
    simp only [sortDescBy, ih hrest]
    cases rest with
    | nil => rfl
    | cons g rest' =>
      simp only [insertDescBy]
      rw [if_pos ((List.pairwise_cons.mp hl).1 g (List.mem_cons_self _ _))]

/-- Every entry of the `uniqueFields` Map keys its field's `type_name`. -/
def entryWF (m : List (String × DetectedField)) : Prop :=
  ∀ p ∈ m, p.1 = fieldKey p.2

theorem updateUnique_entryWF (m : List (String × DetectedField)) (f : DetectedField)
    (hm : entryWF m) : entryWF (updateUnique m f) := by
  induction m with
  | nil =>
    intro p hp
    rcases List.mem_singleton.mp hp with rfl
    rfl
  | cons q rest ih =>
    obtain ⟨k, g⟩ := q
    simp only [updateUnique]
    split
    · next hk =>
      intro p hp
      rcases List.mem_cons.mp hp with rfl | hp
      · split
        · simpa using hk
        · exact hm (k, g) (List.mem_cons_self _ _)
      · exact hm p (List.mem_cons_of_mem _ hp)
    · intro p hp
      rcases List.mem_cons.mp hp with rfl | hp
      · exact hm (k, g) (List.mem_cons_self _ _)
      · exact ih (fun r hr => hm r (List.mem_cons_of_mem _ hr)) p hp

theorem updateUnique_keys_mem (m : List (String × DetectedField)) (f : DetectedField)
    (h : fieldKey f ∈ m.map Prod.fst) :
    (updateUnique m f).map Prod.fst = m.map Prod.fst := by
  induction m with
  | nil => simp at h
  | cons q rest ih =>
    obtain ⟨k, g⟩ := q
    simp only [updateUnique]
    split
    · next hk =>
      split <;> simp [hk]
    · next hk =>
      have : fieldKey f ∈ rest.map Prod.fst := by
        rcases List.mem_cons.mp h with h' | h'
        · exact absurd h'.symm hk
        · exact h'
      simp [ih this]

theorem updateUnique_notmem (m : List (String × DetectedField)) (f : DetectedField)
    (h : fieldKey f ∉ m.map Prod.fst) :
    updateUnique m f = m ++ [(fieldKey f, f)] := by
  induction m with
  | nil => rfl
  | cons q rest ih =>
    obtain ⟨k, g⟩ := q
    simp only [updateUnique]
    split
    · next hk =>
      exact absurd (by simp [hk]) h
    · have : fieldKey f ∉ rest.map Prod.fst := fun hm => h (by simp [hm])
      simp [ih this]

theorem updateUnique_keys_nodup (m : List (String × DetectedField)) (f : DetectedField)
    (h : (m.map Prod.fst).Nodup) : ((updateUnique m f).map Prod.fst).Nodup := by
  by_cases hmem : fieldKey f ∈ m.map Prod.fst
  · rw [updateUnique_keys_mem m f hmem]; exact h
  · rw [updateUnique_notmem m f hmem]
    simp only [List.map_append, List.map_cons, List.map_nil]
    exact List.Nodup.append h (List.nodup_singleton _) (by simpa using hmem)

theorem foldl_updateUnique_entryWF (l : List DetectedField)
    (acc : List (String × DetectedField)) (hacc : entryWF acc) :
    entryWF (l.foldl updateUnique acc) := by
  induction l generalizing acc with
  | nil => exact hacc
  | cons b bs ih => exact ih _ (updateUnique_entryWF acc b hacc)

theorem foldl_updateUnique_keys_nodup (l : List DetectedField)
    (acc : List (String × DetectedField)) (hacc : (acc.map Prod.fst).Nodup) :
    ((l.foldl updateUnique acc).map Prod.fst).Nodup := by
  induction l generalizing acc with
  | nil => exact hacc
  | cons b bs ih => exact ih _ (updateUnique_keys_nodup acc b hacc)

theorem updateUnique_snd_sub (m : List (String × DetectedField)) (f : DetectedField) :
    ∀ x ∈ (updateUnique m f).map Prod.snd, x ∈ m.map Prod.snd ∨ x = f := by
  induction m with
  | nil =>
    intro x hx
    simp only [updateUnique, List.map_cons, List.map_nil, List.mem_singleton] at hx
    exact Or.inr hx
  | cons q rest ih =>
    obtain ⟨k, g⟩ := q
    intro x hx
    simp only [updateUnique] at hx
    revert hx
    split
    · split
      · simp only [List.map_cons, List.mem_cons]
        intro hx
        rcases hx with rfl | h
        · exact Or.inr rfl
        · exact Or.inl (Or.inr h)
      · simp only [List.map_cons, List.mem_cons]
        intro hx
        rcases hx with rfl | h
        · exact Or.inl (Or.inl rfl)
        · exact Or.inl (Or.inr h)
    · simp only [List.map_cons, List.mem_cons]
      intro hx
      rcases hx with rfl | h
      · exact Or.inl (Or.inl rfl)
      · rcases ih x h with h' | h'
        · exact Or.inl (Or.inr h')
        · exact Or.inr h'

theorem foldl_updateUnique_snd_sub (l : List DetectedField)
    (acc : List (String × DetectedField)) :
    ∀ x ∈ (l.foldl updateUnique acc).map Prod.snd, x ∈ acc.map Prod.snd ∨ x ∈ l := by
  induction l generalizing acc with
  | nil => intro x hx; exact Or.inl hx
  | cons b bs ih =>
    intro x hx
    rcases ih (updateUnique acc b) x hx with h | h
    · rcases updateUnique_snd_sub acc b x h with h' | h'
      · exact Or.inl h'
      · exact Or.inr (by simp [h'])
    · exact Or.inr (List.mem_cons_of_mem _ h)

theorem jsObjGet_cons (k' : String) (v : DetectedField)
    (rest : List (String × DetectedField)) (k : String) :
    jsObjGet ((k', v) :: rest) k = if k' = k then some v else jsObjGet rest k := by
  by_cases h : k' = k
  · simp [jsObjGet, List.find?_cons, h]
  · simp [jsObjGet, List.find?_cons, h]

theorem updateUnique_get_self (m : List (String × DetectedField)) (f : DetectedField) :
    ∃ h, jsObjGet (updateUnique m f) (fieldKey f) = some h ∧ f.confidence ≤ h.confidence ∧
      ∀ g, jsObjGet m (fieldKey f) = some g → g.confidence ≤ h.confidence := by
  induction m with
  | nil =>
    refine ⟨f, ?_, le_refl _, ?_⟩
    · simp [updateUnique, jsObjGet_cons]
    · intro g hg; simp [jsObjGet] at hg
  | cons q rest ih =>
    obtain ⟨k, g0⟩ := q
    simp only [updateUnique]
    split
    · next hk =>
      split
      · next hlt =>
        refine ⟨f, ?_, le_refl _, ?_⟩
        · rw [jsObjGet_cons, if_pos hk]
        · intro g hg
          rw [jsObjGet_cons, if_pos hk] at hg
          injection hg with hg
          subst hg
          exact le_of_lt hlt
      · next hnlt =>
        refine ⟨g0, ?_, le_of_not_lt hnlt, ?_⟩
        · rw [jsObjGet_cons, if_pos hk]
        · intro g hg
          rw [jsObjGet_cons, if_pos hk] at hg
          injection hg with hg
          subst hg
          exact le_refl _
    · next hk =>
      obtain ⟨h, hget, hf, hold⟩ := ih
      refine ⟨h, ?_, hf, ?_⟩
      · rw [jsObjGet_cons, if_neg hk]; exact hget
      · intro g hg
        rw [jsObjGet_cons, if_neg hk] at hg
        exact hold g hg

theorem updateUnique_get_other (m : List (String × DetectedField)) (f : DetectedField)
    (k : String) (hk : k ≠ fieldKey f) :
    jsObjGet (updateUnique m f) k = jsObjGet m k := by
  induction m with
  | nil =>
    simp [updateUnique, jsObjGet_cons, Ne.symm hk, jsObjGet]
  | cons q rest ih =>
    obtain ⟨k', g0⟩ := q
    simp only [updateUnique]
    split
    · next hkk =>
      have hne : k' ≠ k := by rw [hkk]; exact Ne.symm hk
      split
      · rw [jsObjGet_cons, jsObjGet_cons, if_neg hne, if_neg hne]
      · rfl
    · next hkk =>
      by_cases hkk2 : k' = k
      · rw [jsObjGet_cons, jsObjGet_cons, if_pos hkk2, if_pos hkk2]
      · rw [jsObjGet_cons, jsObjGet_cons, if_neg hkk2, if_neg hkk2]
        exact ih

theorem foldl_updateUnique_get_mono (l : List DetectedField) :
    ∀ (acc : List (String × DetectedField)) (k : String) (g : DetectedField),
      jsObjGet acc k = some g →
      ∃ h, jsObjGet (l.foldl updateUnique acc) k = some h ∧ g.confidence ≤ h.confidence := by
  induction l with
  | nil => intro acc k g hg; exact ⟨g, hg, le_refl _⟩
  | cons b bs ih =>
    intro acc k g hg
    by_cases hk : k = fieldKey b
    · subst hk
      obtain ⟨h0, hget0, _, hold⟩ := updateUnique_get_self acc b
      obtain ⟨h, hget, hle⟩ := ih (updateUnique acc b) _ h0 hget0
      exact ⟨h, hget, le_trans (hold g hg) hle⟩
    · obtain ⟨h, hget, hle⟩ := ih (updateUnique acc b) k g
        (by rw [updateUnique_get_other acc b k hk]; exact hg)
      exact ⟨h, hget, hle⟩

theorem foldl_updateUnique_covers (l : List DetectedField) :
    ∀ (acc : List (String × DetectedField)), ∀ g ∈ l,
      ∃ h, jsObjGet (l.foldl updateUnique acc) (fieldKey g) = some h ∧
        g.confidence ≤ h.confidence := by
  induction l with
  | nil => intro acc g hg; cases hg
  | cons b bs ih =>
    intro acc g hg
    rcases List.mem_cons.mp hg with rfl | hg
    · obtain ⟨h0, hget0, hb, _⟩ := updateUnique_get_self acc g
      obtain ⟨h, hget, hle⟩ := foldl_updateUnique_get_mono bs (updateUnique acc g) _ h0 hget0
      exact ⟨h, hget, le_trans hb hle⟩
    · exact ih (updateUnique acc b) g hg

theorem jsObjGet_of_mem :
    ∀ (m : List (String × DetectedField)) (p : String × DetectedField), p ∈ m →
      ((m.map Prod.fst).Nodup) → jsObjGet m p.1 = some p.2 := by
  intro m p
  induction m with
  | nil => intro hp _; cases hp
  | cons q rest ih =>
    intro hp hnd
    obtain ⟨k, v⟩ := q
    have hnd' : (∀ (x : DetectedField), (k, x) ∉ rest) ∧ (rest.map Prod.fst).Nodup := by
      simpa using hnd
    rcases List.mem_cons.mp hp with rfl | hp2
    · rw [jsObjGet_cons, if_pos rfl]
    · have hk : k ≠ p.1 := by
        intro h
        subst h
        exact hnd'.1 p.2 hp2
      rw [jsObjGet_cons, if_neg hk]
      exact ih hp2 hnd'.2

/-- The threshold filter of `optimizeFieldSelection` (its `kept` step). -/
def keptOf (fields : List DetectedField) (threshold : ℚ) : List DetectedField :=
  fields.filter (fun f => threshold * 100 ≤ (f.confidence : ℚ))

/-- The `uniqueFields` Map of `optimizeFieldSelection`. -/
def uniqOf (fields : List DetectedField) (threshold : ℚ) : List (String × DetectedField) :=
  (keptOf fields threshold).foldl updateUnique []

theorem optimizeFieldSelection_eq (fields : List DetectedField) (t : ℚ) :
    optimizeFieldSelection fields t = (sortDescBy ((uniqOf fields t).map Prod.snd)).take 20 :=
  rfl

theorem mem_keptOf {f : DetectedField} {fields : List DetectedField} {t : ℚ} :
    f ∈ keptOf fields t ↔ f ∈ fields ∧ t * 100 ≤ (f.confidence : ℚ) := by
  simp [keptOf, List.mem_filter]

theorem opt_mem_kept {fields : List DetectedField} {t : ℚ} {f : DetectedField}
    (hf : f ∈ optimizeFieldSelection fields t) : f ∈ keptOf fields t := by
  rw [optimizeFieldSelection_eq] at hf
  have h2 : f ∈ (uniqOf fields t).map Prod.snd :=
    mem_sortDescBy.mp ((List.take_sublist _ _).subset hf)
  rcases foldl_updateUnique_snd_sub (keptOf fields t) [] f h2 with h | h
  · simp at h
  · exact h

theorem uniqOf_entryWF (fields : List DetectedField) (t : ℚ) : entryWF (uniqOf fields t) :=
  foldl_updateUnique_entryWF _ [] (fun p hp => nomatch hp)

theorem uniqOf_keys_nodup (fields : List DetectedField) (t : ℚ) :
    ((uniqOf fields t).map Prod.fst).Nodup :=
  foldl_updateUnique_keys_nodup _ [] (by simp)

theorem opt_keys_pairwise (fields : List DetectedField) (t : ℚ) :
    (optimizeFieldSelection fields t).Pairwise (fun a b => fieldKey a ≠ fieldKey b) := by
  rw [optimizeFieldSelection_eq]
  refine List.Pairwise.sublist (List.take_sublist _ _) ?_
  rw [List.Perm.pairwise_iff (fun h => h.symm) (sortDescBy_perm _)]
  have hwf := uniqOf_entryWF fields t
  have hnd := uniqOf_keys_nodup fields t
  rw [List.pairwise_map]
  rw [List.Nodup, List.pairwise_map] at hnd
  exact hnd.imp_of_mem (fun {p q} hp hq h => by
    rw [hwf p hp, hwf q hq] at h; exact h)

theorem opt_sorted (fields : List DetectedField) (t : ℚ) :
    (optimizeFieldSelection fields t).Pairwise (fun a b => b.confidence ≤ a.confidence) := by
  rw [optimizeFieldSelection_eq]
  exact List.Pairwise.sublist (List.take_sublist _ _) (sortDescBy_sorted _)

theorem opt_len (fields : List DetectedField) (t : ℚ) :
    (optimizeFieldSelection fields t).length ≤ 20 := by
  rw [optimizeFieldSelection_eq, List.length_take]
  omega

theorem opt_max {fields : List DetectedField} {t : ℚ} {f : DetectedField}
    (hf : f ∈ optimizeFieldSelection fields t) {g : DetectedField} (hg : g ∈ fields)
    (hgt : t * 100 ≤ (g.confidence : ℚ)) (hkey : fieldKey g = fieldKey f) :
    g.confidence ≤ f.confidence := by
  rw [optimizeFieldSelection_eq] at hf
  have h2 : f ∈ (uniqOf fields t).map Prod.snd :=
    mem_sortDescBy.mp ((List.take_sublist _ _).subset hf)
  obtain ⟨p, hp, hpf⟩ := List.mem_map.mp h2
  have hkeyp : p.1 = fieldKey g := by rw [uniqOf_entryWF fields t p hp, hpf, hkey]
  obtain ⟨h, hget, hle⟩ :=
    foldl_updateUnique_covers (keptOf fields t) [] g (mem_keptOf.mpr ⟨hg, hgt⟩)
  have hgetp : jsObjGet (uniqOf fields t) p.1 = some p.2 :=
    jsObjGet_of_mem _ p hp (uniqOf_keys_nodup fields t)
  rw [hkeyp] at hgetp
  have hhp : h = p.2 := by
    have := hget.symm.trans hgetp
    injection this
  rw [hhp, hpf] at hle
  exact hle

theorem opt_complete {fields : List DetectedField} {t : ℚ} {g : DetectedField}
    (hg : g ∈ fields) (hgt : t * 100 ≤ (g.confidence : ℚ)) :
    (optimizeFieldSelection fields t).length = 20 ∨
      ∃ f ∈ optimizeFieldSelection fields t, fieldKey f = fieldKey g := by
  obtain ⟨h, hget, hle⟩ :=
    foldl_updateUnique_covers (keptOf fields t) [] g (mem_keptOf.mpr ⟨hg, hgt⟩)
  obtain ⟨p, hfind⟩ : ∃ p, (uniqOf fields t).find? (fun q => q.1 = fieldKey g) = some p := by
    cases hfound : (uniqOf fields t).find? (fun q => q.1 = fieldKey g) with
    | none =>
      exfalso
      have hget' : jsObjGet (uniqOf fields t) (fieldKey g) = some h := hget
      rw [jsObjGet, hfound] at hget'
      simp at hget'
    | some p => exact ⟨p, rfl⟩
  have hpmem : p ∈ uniqOf fields t := List.mem_of_find?_eq_some hfind
  have hpkey : p.1 = fieldKey g := by simpa using List.find?_some hfind
  have hmemsort : p.2 ∈ sortDescBy ((uniqOf fields t).map Prod.snd) :=
    mem_sortDescBy.mpr (List.mem_map.mpr ⟨p, hpmem, rfl⟩)
  by_cases hlen : (sortDescBy ((uniqOf fields t).map Prod.snd)).length ≤ 20
  · right
    refine ⟨p.2, ?_, ?_⟩
    · rw [optimizeFieldSelection_eq, List.take_of_length_le hlen]
      exact hmemsort
    · rw [← uniqOf_entryWF fields t p hpmem, hpkey]
  · left
    rw [optimizeFieldSelection_eq, List.length_take]
    omega

/-- Two candidates sharing the `(type, name)` dedup key, confidences 70/85. -/
def cand70 : DetectedField :=
  { id := "a", name := "Prices", type := "price", selectors := ["s1"], elements := 1,
    sampleData := [], confidence := 70, selected := false }

def cand85 : DetectedField :=
  { id := "b", name := "Prices", type := "price", selectors := ["s2"], elements := 1,
    sampleData := [], confidence := 85, selected := true }

/-- C2: `optimize` drops every candidate below `threshold × 100`, keeps for
each `type_name` key only a maximal-confidence survivor (every retained
field dominates every same-key survivor), sorts descending by confidence,
and truncates to at most 20 fields; a surviving key is only ever lost to
the 20-cap; and on two same-key candidates with confidences 70 and 85 at
threshold 0.7 exactly the 85-confidence one is retained. -/
theorem C2_optimize_steps (fields : List DetectedField) (t : ℚ) :
    (∀ f ∈ optimizeFieldSelection fields t, f ∈ fields ∧ t * 100 ≤ (f.confidence : ℚ)) ∧
    ((optimizeFieldSelection fields t).Pairwise (fun a b => fieldKey a ≠ fieldKey b)) ∧
    (∀ f ∈ optimizeFieldSelection fields t, ∀ g ∈ fields,
      t * 100 ≤ (g.confidence : ℚ) → fieldKey g = fieldKey f →
      g.confidence ≤ f.confidence) ∧
    ((optimizeFieldSelection fields t).Pairwise (fun a b => b.confidence ≤ a.confidence)) ∧
    ((optimizeFieldSelection fields t).length ≤ 20) ∧
    (∀ g ∈ fields, t * 100 ≤ (g.confidence : ℚ) →
      (optimizeFieldSelection fields t).length = 20 ∨
        ∃ f ∈ optimizeFieldSelection fields t, fieldKey f = fieldKey g) ∧
    optimizeFieldSelection [cand70, cand85] (7/10) = [cand85] := by
  refine ⟨?_, opt_keys_pairwise fields t, ?_, opt_sorted fields t, opt_len fields t,
    ?_, by decide⟩
  · intro f hf
    exact mem_keptOf.mp (opt_mem_kept hf)
  · intro f hf g hg hgt hkey
    exact opt_max hf hg hgt hkey
  · intro g hg hgt
    exact opt_complete hg hgt

theorem foldl_updateUnique_fresh :
    ∀ (l : List DetectedField) (acc : List (String × DetectedField)),
      l.Pairwise (fun a b => fieldKey a ≠ fieldKey b) →
      (∀ f ∈ l, fieldKey f ∉ acc.map Prod.fst) →
      l.foldl updateUnique acc = acc ++ l.map (fun f => (fieldKey f, f)) := by
  intro l
  induction l with
  | nil => intro acc _ _; simp
  | cons b bs ih =>
    intro acc hp hd
    have h1 : updateUnique acc b = acc ++ [(fieldKey b, b)] :=
      updateUnique_notmem acc b (hd b (List.mem_cons_self _ _))
    have hd' : ∀ f ∈ bs, fieldKey f ∉ (acc ++ [(fieldKey b, b)]).map Prod.fst := by
      intro f hf
      simp only [List.map_append, List.mem_append, List.map_cons, List.map_nil,
        List.mem_singleton]
      rintro (h | h)
      · exact hd f (List.mem_cons_of_mem _ hf) h
      · exact absurd h.symm ((List.pairwise_cons.mp hp).1 f hf)
    simp only [List.foldl_cons, h1]
    rw [ih _ (List.pairwise_cons.mp hp).2 hd']
    simp

/-- C3: `optimize` is idempotent — applying it to its own output with the
same threshold returns the same list, with no further filtering,
deduplication, reordering or truncation. -/
theorem C3_optimize_idempotent (fields : List DetectedField) (t : ℚ) :
    optimizeFieldSelection (optimizeFieldSelection fields t) t =
      optimizeFieldSelection fields t := by
  have h1 : keptOf (optimizeFieldSelection fields t) t = optimizeFieldSelection fields t := by
    rw [keptOf, List.filter_eq_self]
    intro f hf
    exact decide_eq_true (mem_keptOf.mp (opt_mem_kept hf)).2
  have h2 : (optimizeFieldSelection fields t).foldl updateUnique [] =
      (optimizeFieldSelection fields t).map (fun f => (fieldKey f, f)) := by
    have := foldl_updateUnique_fresh (optimizeFieldSelection fields t) []
      (opt_keys_pairwise fields t) (by simp)
    simpa using this
  calc optimizeFieldSelection (optimizeFieldSelection fields t) t
      = (sortDescBy ((uniqOf (optimizeFieldSelection fields t) t).map Prod.snd)).take 20 :=
        rfl
    _ = (sortDescBy (((optimizeFieldSelection fields t).map
          (fun f => (fieldKey f, f))).map Prod.snd)).take 20 := by
        rw [uniqOf, h1, h2]
    _ = (sortDescBy (optimizeFieldSelection fields t)).take 20 := by
        rw [List.map_map]
        simp [Function.comp_def]
    _ = (optimizeFieldSelection fields t).take 20 := by
        rw [sortDescBy_eq_self _ (opt_sorted fields t)]
    _ = optimizeFieldSelection fields t := List.take_of_length_le (opt_len fields t)

/-! ## C8: fetch-failure behaviour of analyzePageWithML -/

/-- Whether a result is a failure carried by the (spec-postulated)
distinguishable `FetchError` class. -/
def isFetchTypedFailure : Except JsError (PageInfo × List DetectedField) → Bool
  | .error (.fetchTyped _) => true
  | _ => false

/-- Whether a result is a failure carried by the generic `Error` class. -/
def isGenericFailure : Except JsError (PageInfo × List DetectedField) → Bool
  | .error (.generic _) => true
  | _ => false

def emptyDoc : Doc where
  query := fun _ => []
  find := fun _ _ => []
  text := fun _ => ""
  attr := fun _ _ => none
  isMatch := fun _ _ => false
  rmatch := fun _ _ => []

/-- The default `AdvancedScrapingOptions` of `analyzePageWithML`. -/
def defaultOptions : AdvancedScrapingOptions :=
  { useNLP := true, enablePatternLearning := true, semanticAnalysis := true,
    confidenceThreshold := 7/10 }

/-- The result of `analyze("http://nonexistent.invalid")` when the network
resolution fails. -/
def c8Result : Except JsError (PageInfo × List DetectedField) :=
  analyzePageWithML
    (Except.error (JsError.generic "getaddrinfo ENOTFOUND nonexistent.invalid"))
    (fun _ => emptyDoc) "http://nonexistent.invalid" "nonexistent.invalid" none 0
    defaultOptions

/-- C8 counterexample: on a failed fetch, `analyzePageWithML` fails with a
plain generic `Error` (message-wrapped), not with a distinguishable
`FetchError` — no such error class exists anywhere in the repository. -/
theorem C8_counterexample :
    c8Result = Except.error (JsError.generic
      ("ML Analysis failed: Error: Failed to fetch page: Error: getaddrinfo ENOTFOUND nonexistent.invalid")) ∧
    isFetchTypedFailure c8Result = false ∧
    isGenericFailure c8Result = true := by
  exact ⟨rfl, rfl, rfl⟩

theorem listIsPre_refl_append : ∀ (l m : List Char), listIsPre l (l ++ m) = true := by
  intro l
  induction l with
  | nil => intro m; rfl
  | cons c cs ih => intro m; simp [listIsPre, ih]

/-- C8 (amended): when the page fetch fails, `analyzePageWithML` fails with
a generic `Error` whose message is "ML Analysis failed: " wrapping the
fetch error's "Failed to fetch page: " message — not with a distinguishable
`FetchError` class — and produces no result at all (no `PageInfo`, no
detected-field list). -/
theorem C8_amended_fetch_failure (axiosErr : JsError) (parse : String → Doc)
    (url hostname : String) (cachedPatterns : Option (List DetectedField)) (nowMs : Nat)
    (options : AdvancedScrapingOptions) :
    analyzePageWithML (.error axiosErr) parse url hostname cachedPatterns nowMs options =
      Except.error (.generic ("ML Analysis failed: " ++
        errToString (.generic ("Failed to fetch page: " ++ errToString axiosErr)))) ∧
    jsStartsWith ("ML Analysis failed: " ++
      errToString (.generic ("Failed to fetch page: " ++ errToString axiosErr)))
      "ML Analysis failed: " = true ∧
    isGenericFailure
      (analyzePageWithML (.error axiosErr) parse url hostname cachedPatterns nowMs
        options) = true ∧
    ∀ pi fs,
      analyzePageWithML (.error axiosErr) parse url hostname cachedPatterns nowMs options ≠
        Except.ok (pi, fs) := by
  refine ⟨rfl, ?_, rfl, ?_⟩
  · simp only [jsStartsWith, String.data_append]
    exact listIsPre_refl_append _ _
  · intro pi fs h
    exact Except.noConfusion h

/-! ## C9: the semantic-pattern fields -/

theorem strAppend_left_inj {p a b : String} (h : p ++ a = p ++ b) : a = b := by
  have hd := congrArg String.data h
  simp only [String.data_append] at hd
  have hd' := List.append_cancel_left hd
  cases a
  cases b
  exact congrArg String.mk hd'

/-- The field `analyzeSemanticPatterns` emits for one rule at one counter. -/
def semField (doc : Doc) (rule : String × List String) (counter : Nat) : DetectedField :=
  { id := "semantic_" ++ rule.1 ++ "_" ++ toString counter,
    name := generateSmartFieldName rule.1 ((semanticMatchesFor doc rule.2).take 10),
    type := rule.1,
    selectors := ["text-pattern:" ++ rule.1],
    elements := (semanticMatchesFor doc rule.2).length,
    sampleData := (semanticMatchesFor doc rule.2).take 10,
    confidence := calculateSemanticConfidence (semanticMatchesFor doc rule.2).length rule.1,
    selected :=
      decide (80 < calculateSemanticConfidence (semanticMatchesFor doc rule.2).length rule.1) }

theorem semanticStep_eq (doc : Doc) (acc : List DetectedField × Nat)
    (rule : String × List String) :
    semanticStep doc acc rule =
      if 0 < (semanticMatchesFor doc rule.2).length then
        (acc.1 ++ [semField doc rule acc.2], acc.2 + 1)
      else acc := rfl

theorem semanticStep_filter_ne (doc : Doc) (acc : List DetectedField × Nat)
    (rule : String × List String) (t : String) (ht : rule.1 ≠ t) :
    ((semanticStep doc acc rule).1).filter
      (fun g => g.selectors = ["text-pattern:" ++ t]) =
    (acc.1).filter (fun g => g.selectors = ["text-pattern:" ++ t]) := by
  rw [semanticStep_eq]
  split
  · rw [List.filter_append]
    have hne : ("text-pattern:" ++ rule.1) ≠ ("text-pattern:" ++ t) :=
      fun h => ht (strAppend_left_inj h)
    simp [semField, hne]
  · rfl

theorem semanticStep_filter_hit (doc : Doc) (acc : List DetectedField × Nat)
    (rule : String × List String) (hm : 0 < (semanticMatchesFor doc rule.2).length) :
    ((semanticStep doc acc rule).1).filter
      (fun g => g.selectors = ["text-pattern:" ++ rule.1]) =
    ((acc.1).filter (fun g => g.selectors = ["text-pattern:" ++ rule.1])) ++
      [semField doc rule acc.2] := by
  rw [semanticStep_eq, if_pos hm, List.filter_append]
  simp [semField]

theorem calcSem_claim_formula (m : Nat) (t : String) (hm : 1 ≤ m)
    (hb : 5 ≤ typeBoostOf t) :
    calculateSemanticConfidence m t = min 95 (60 + (m : ℤ) * 5 + typeBoostOf t) := by
  simp only [calculateSemanticConfidence]
  have hm' : (1:ℤ) ≤ (m:ℤ) := by exact_mod_cast hm
  omega

/-- C9: for every registered semantic type (price, email, phone, date) with
at least one distinct trimmed match in the body text, exactly one field is
emitted whose selectors list is `["text-pattern:<type>"]`; its `elements`
is the distinct-match count `m` and its confidence equals
`min(95, 60 + m×5 + typeBoost)`, where the boosts are
email 15 > phone 12 > price 10 > date 8. -/
theorem C9_semantic_fields (doc : Doc) (rule : String × List String)
    (hreg : rule ∈ semanticRules) (hm : 0 < (semanticMatchesFor doc rule.2).length) :
    (∃ f, (analyzeSemanticPatterns doc).filter
        (fun g => g.selectors = ["text-pattern:" ++ rule.1]) = [f] ∧
      f.type = rule.1 ∧
      f.elements = (semanticMatchesFor doc rule.2).length ∧
      f.confidence =
        min 95 (60 + ((semanticMatchesFor doc rule.2).length : ℤ) * 5 +
          typeBoostOf rule.1)) ∧
    (typeBoostOf "email" = 15 ∧ typeBoostOf "phone" = 12 ∧ typeBoostOf "price" = 10 ∧
      typeBoostOf "date" = 8) := by
  refine ⟨?_, by decide⟩
  have hm1 : 1 ≤ (semanticMatchesFor doc rule.2).length := hm
  simp only [analyzeSemanticPatterns, semanticRules, List.foldl_cons, List.foldl_nil]
  rcases List.mem_cons.mp hreg with rfl | hreg
  · rw [semanticStep_filter_ne doc _ dateRule _ (by decide),
      semanticStep_filter_ne doc _ phoneRule _ (by decide),
      semanticStep_filter_ne doc _ emailRule _ (by decide),
      semanticStep_filter_hit doc _ _ hm]
    refine ⟨semField doc priceRule 1, by simp, rfl, rfl, ?_⟩
    exact calcSem_claim_formula _ _ hm1 (by decide)
  rcases List.mem_cons.mp hreg with rfl | hreg
  · rw [semanticStep_filter_ne doc _ dateRule _ (by decide),
      semanticStep_filter_ne doc _ phoneRule _ (by decide),
      semanticStep_filter_hit doc _ _ hm,
      semanticStep_filter_ne doc _ priceRule _ (by decide)]
    refine ⟨semField doc emailRule (semanticStep doc ([], 1) priceRule).2, by simp, rfl, rfl, ?_⟩
    exact calcSem_claim_formula _ _ hm1 (by decide)
  rcases List.mem_cons.mp hreg with rfl | hreg
  · rw [semanticStep_filter_ne doc _ dateRule _ (by decide),
      semanticStep_filter_hit doc _ _ hm,
      semanticStep_filter_ne doc _ emailRule _ (by decide),
      semanticStep_filter_ne doc _ priceRule _ (by decide)]
    refine ⟨semField doc phoneRule
      (semanticStep doc (semanticStep doc ([], 1) priceRule) emailRule).2,
      by simp, rfl, rfl, ?_⟩
    exact calcSem_claim_formula _ _ hm1 (by decide)
  rcases List.mem_cons.mp hreg with rfl | hreg
  · rw [semanticStep_filter_hit doc _ _ hm,
      semanticStep_filter_ne doc _ phoneRule _ (by decide),
      semanticStep_filter_ne doc _ emailRule _ (by decide),
      semanticStep_filter_ne doc _ priceRule _ (by decide)]
    refine ⟨semField doc dateRule
      (semanticStep doc (semanticStep doc (semanticStep doc ([], 1) priceRule) emailRule)
        phoneRule).2, by simp, rfl, rfl, ?_⟩
    exact calcSem_claim_formula _ _ hm1 (by decide)
  cases hreg

/-- A document whose body text contains one email address, with the regex
oracle answering the email pattern accordingly. -/
def exDoc9 : Doc where
  query := fun sel => if sel = "body" then [0] else []
  find := fun _ _ => []
  text := fun e => if e = 0 then "Contact: a@b.com" else ""
  attr := fun _ _ => none
  isMatch := fun _ _ => false
  rmatch := fun p txt =>
    if p = "/\\b[A-Za-z0-9._%+-]+@[A-Za-z0-9.-]+\\.[A-Z|a-z]\x7b2,\x7d\\b/gi" ∧
        txt = "Contact: a@b.com" then ["a@b.com"] else []

/-- C9 witness: the email rule on `exDoc9`. -/
theorem C9_witness :
    (∃ f, (analyzeSemanticPatterns exDoc9).filter
        (fun g => g.selectors = ["text-pattern:" ++ emailRule.1]) = [f] ∧
      f.type = emailRule.1 ∧
      f.elements = (semanticMatchesFor exDoc9 emailRule.2).length ∧
      f.confidence =
        min 95 (60 + ((semanticMatchesFor exDoc9 emailRule.2).length : ℤ) * 5 +
          typeBoostOf emailRule.1)) ∧
    (typeBoostOf "email" = 15 ∧ typeBoostOf "phone" = 12 ∧ typeBoostOf "price" = 10 ∧
      typeBoostOf "date" = 8) :=
  C9_semantic_fields exDoc9 emailRule (by decide) (by decide)

/-! ## C7: positional zipping in the individual/fallback regime -/

/-- C7: in the individual regime the field-value lists are zipped by index:
with field A yielding 5 non-empty values and field B yielding 3, the records
are exactly the 5 positional zips — record index 3 (0-based) holds only A's
fourth value with no key for B, and no record at index 5 or beyond exists
(ragged tails are dropped, never padded). -/
theorem C7_ragged_zip (doc : Doc) (A B : DetectedField)
    (a0 a1 a2 a3 a4 b0 b1 b2 : String)
    (hname : A.name ≠ B.name)
    (hA : fieldValuesIndividually doc A = [a0, a1, a2, a3, a4])
    (hB : fieldValuesIndividually doc B = [b0, b1, b2])
    (ha0 : a0 ≠ "") (ha1 : a1 ≠ "") (ha2 : a2 ≠ "") (ha3 : a3 ≠ "") (ha4 : a4 ≠ "")
    (hb0 : b0 ≠ "") (hb1 : b1 ≠ "") (hb2 : b2 ≠ "") :
    extractIndividually doc [A, B] =
      [[(A.name, a0), (B.name, b0)],
       [(A.name, a1), (B.name, b1)],
       [(A.name, a2), (B.name, b2)],
       [(A.name, a3)],
       [(A.name, a4)]] := by
  have hset2 : jsObjSet [(A.name, [a0, a1, a2, a3, a4])] B.name [b0, b1, b2] =
      [(A.name, [a0, a1, a2, a3, a4]), (B.name, [b0, b1, b2])] := by
    simp [jsObjSet, hname]
  have hgetA : jsObjGet [(A.name, [a0, a1, a2, a3, a4]), (B.name, [b0, b1, b2])] A.name =
      some [a0, a1, a2, a3, a4] := by
    simp [jsObjGet, List.find?]
  have hgetB : jsObjGet [(A.name, [a0, a1, a2, a3, a4]), (B.name, [b0, b1, b2])] B.name =
      some [b0, b1, b2] := by
    simp [jsObjGet, List.find?, hname]
  have hsetr : ∀ (x y : String), jsObjSet [(A.name, x)] B.name y =
      [(A.name, x), (B.name, y)] := by
    intro x y
    simp [jsObjSet, hname]
  simp only [extractIndividually, List.foldl_cons, List.foldl_nil, hA, hB]
  rw [show jsObjSet ([] : List (String × List String)) A.name [a0, a1, a2, a3, a4] =
      [(A.name, [a0, a1, a2, a3, a4])] from rfl]
  rw [hset2]
  simp only [List.length_cons, List.length_nil]
  rw [show List.range (max (max 0 (0+1+1+1+1+1)) (0+1+1+1)) = [0, 1, 2, 3, 4] from by decide]
  simp only [List.foldl_cons, List.foldl_nil, hgetA, hgetB, List.get?]
  simp only [jsObjSet, List.any_nil, List.any_cons, Bool.or_false, List.nil_append,
    if_pos ha0, if_pos ha1, if_pos ha2, if_pos ha3, if_pos ha4,
    if_pos hb0, if_pos hb1, if_pos hb2]
  simp [hname]

/-- A document giving field A (selector "selA") 5 values and field B
(selector "selB") 3 values. -/
def exDoc7 : Doc where
  query := fun sel =>
    if sel = "selA" then [0, 1, 2, 3, 4] else if sel = "selB" then [10, 11, 12] else []
  find := fun _ _ => []
  text := fun e =>
    if e < 5 then "a" ++ toString e
    else if e < 13 then "b" ++ toString (e - 10) else ""
  attr := fun _ _ => none
  isMatch := fun _ _ => false
  rmatch := fun _ _ => []

def fieldA7 : DetectedField :=
  { id := "fa", name := "A", type := "text", selectors := ["selA"], elements := 5,
    sampleData := [], confidence := 90, selected := true }

def fieldB7 : DetectedField :=
  { id := "fb", name := "B", type := "text", selectors := ["selB"], elements := 3,
    sampleData := [], confidence := 90, selected := true }

/-- C7 witness: the concrete 5-value / 3-value document. -/
theorem C7_witness :
    extractIndividually exDoc7 [fieldA7, fieldB7] =
      [[("A", "a0"), ("B", "b0")],
       [("A", "a1"), ("B", "b1")],
       [("A", "a2"), ("B", "b2")],
       [("A", "a3")],
       [("A", "a4")]] :=
  C7_ragged_zip exDoc7 fieldA7 fieldB7 "a0" "a1" "a2" "a3" "a4" "b0" "b1" "b2"
    (by decide) (by decide) (by decide) (by decide) (by decide) (by decide) (by decide)
    (by decide) (by decide) (by decide) (by decide)

/-! ## C10: emitted records are never empty -/

theorem foldl_preserve {α β : Type} (Q : α → Prop) (step : α → β → α) (l : List β)
    (h : ∀ acc, ∀ b ∈ l, Q acc → Q (step acc b)) :
    ∀ acc, Q acc → Q (l.foldl step acc) := by
  induction l with
  | nil => intro acc hacc; exact hacc
  | cons b bs ih =>
    intro acc hacc
    exact ih (fun acc b hb hq => h acc b (List.mem_cons_of_mem _ hb) hq) (step acc b)
      (h acc b (List.mem_cons_self _ _) hacc)

theorem jsObjSet_ne_nil {α : Type} (m : List (String × α)) (k : String) (v : α) :
    jsObjSet m k v ≠ [] := by
  simp only [jsObjSet]
  split
  · next h =>
    cases m with
    | nil => simp at h
    | cons p rest => simp
  · simp

theorem jsObjSet_entries {α : Type} (Q : α → Prop) (m : List (String × α)) (k : String)
    (v : α) (hm : ∀ e ∈ m, Q e.2) (hv : Q v) : ∀ e ∈ jsObjSet m k v, Q e.2 := by
  intro e he
  simp only [jsObjSet] at he
  split at he
  · obtain ⟨p, hp, hpe⟩ := List.mem_map.mp he
    by_cases h : p.1 = k
    · rw [if_pos h] at hpe
      rw [← hpe]
      exact hv
    · rw [if_neg h] at hpe
      rw [← hpe]
      exact hm p hp
  · rcases List.mem_append.mp he with h | h
    · exact hm e h
    · rcases List.mem_singleton.mp h with rfl
      exact hv

theorem rmatch_fold_nonempty (doc : Doc) (hre : ∀ p txt, "" ∉ doc.rmatch p txt)
    (txt : String) (patterns : List String) :
    ∀ v ∈ patterns.foldl (fun acc p => acc ++ doc.rmatch p txt) [], v ≠ "" := by
  intro v hv
  have step : ∀ (acc : List String), ∀ b ∈ patterns, ∀ x,
      x ∈ (fun acc p => acc ++ doc.rmatch p txt) acc b → x ∈ acc ∨ x ≠ "" := by
    intro acc b hb x hx
    rcases List.mem_append.mp hx with h | h
    · exact Or.inl h
    · exact Or.inr (fun hc => hre b txt (hc ▸ h))
  rcases foldl_proj_mem_inv _ id _ patterns step [] v hv with h | h
  · cases h
  · exact h

theorem containerFieldValues_nonempty (doc : Doc) (hre : ∀ p txt, "" ∉ doc.rmatch p txt)
    (container : Nat) (f : DetectedField) :
    ∀ v ∈ containerFieldValues doc container f, v ≠ "" := by
  intro v hv
  unfold containerFieldValues at hv
  have step : ∀ (acc : List String), ∀ sel ∈ f.selectors, ∀ x,
      x ∈ (fun values selector =>
        if jsStartsWith selector "text-pattern:" then
          let t := jsDrop selector 13
          let patterns := lookupSemanticRules t
          values ++ patterns.foldl (fun acc p => acc ++ doc.rmatch p (doc.text container)) []
        else
          let cleanSelector := cleanSelectorOf selector
          values ++ ((doc.find container cleanSelector).map (extractValueC doc f.type)).filter
            (fun v => v ≠ "")) acc sel →
      x ∈ acc ∨ x ≠ "" := by
    intro acc sel hsel x hx
    simp only at hx
    split at hx
    · rcases List.mem_append.mp hx with h | h
      · exact Or.inl h
      · exact Or.inr (rmatch_fold_nonempty doc hre _ _ x h)
    · rcases List.mem_append.mp hx with h | h
      · exact Or.inl h
      · exact Or.inr (of_decide_eq_true (List.mem_filter.mp h).2)
  rcases foldl_proj_mem_inv _ id _ f.selectors step [] v hv with h | h
  · cases h
  · exact h

theorem setIfNe_entries (record : List (String × String)) (nm v : String)
    (hq : ∀ e ∈ record, e.2 ≠ "") :
    ∀ e ∈ (if v ≠ "" then jsObjSet record nm v else record), e.2 ≠ "" := by
  split
  · next hv => exact jsObjSet_entries (fun v : String => v ≠ "") record _ _ hq hv
  · exact hq

theorem recVal_of_values (values : List String) (hlen : 0 < values.length)
    (hv : ∀ v ∈ values, v ≠ "") :
    recValNonEmpty
      (if values.length = 1 then RecVal.str (values.headD "") else RecVal.list values)
      = true := by
  cases values with
  | nil => cases hlen
  | cons v vs =>
    by_cases h1 : (v :: vs).length = 1
    · rw [if_pos h1]
      simp only [recValNonEmpty, List.headD_cons]
      exact decide_eq_true (hv v (List.mem_cons_self _ _))
    · rw [if_neg h1]
      simp only [recValNonEmpty]
      rw [List.any_eq_true]
      exact ⟨v, List.mem_cons_self _ _, decide_eq_true (hv v (List.mem_cons_self _ _))⟩

/-- C10: in every extraction regime each returned record maps at least one
key to a non-empty value; a record in which no selected field yielded a
non-empty value is never emitted.  (For the container regime the regex
oracle is assumed never to produce an empty match — none of the engine's
patterns can match the empty string.) -/
theorem C10_records_nonempty :
    (∀ (doc : Doc) (containers : List Nat) (fields : List DetectedField),
      (∀ p txt, "" ∉ doc.rmatch p txt) →
      ∀ r ∈ extractFromContainers doc containers fields,
        ∃ e ∈ r, recValNonEmpty e.2 = true) ∧
    (∀ (doc : Doc) (fields : List DetectedField),
      ∀ r ∈ extractFromTables doc fields, ∃ e ∈ r, e.2 ≠ "") ∧
    (∀ (doc : Doc) (fields : List DetectedField),
      ∀ r ∈ extractFromLists doc fields, ∃ e ∈ r, e.2 ≠ "") ∧
    (∀ (doc : Doc) (fields : List DetectedField),
      ∀ r ∈ extractIndividually doc fields, ∃ e ∈ r, e.2 ≠ "") := by
  refine ⟨?_, ?_, ?_, ?_⟩
  · -- container-based
    intro doc containers fields hre r hr
    unfold extractFromContainers at hr
    have hrec : ∀ (container : Nat),
        ∀ e ∈ (fields.foldl (fun record f =>
          let values := containerFieldValues doc container f
          if 0 < values.length then
            jsObjSet record f.name
              (if values.length = 1 then RecVal.str (values.headD "")
               else RecVal.list values)
          else record) ([] : List (String × RecVal))), recValNonEmpty e.2 = true := by
      intro container
      refine foldl_preserve
        (fun record : List (String × RecVal) => ∀ e ∈ record, recValNonEmpty e.2 = true) _
        fields ?_ [] (fun e he => (nomatch he))
      intro record f hf hq
      simp only
      split
      · next hlen =>
        exact jsObjSet_entries (fun v : RecVal => recValNonEmpty v = true) record f.name _
          hq (recVal_of_values _ hlen (containerFieldValues_nonempty doc hre container f))
      · exact hq
    have step : ∀ acc, ∀ c ∈ containers, ∀ (x : List (String × RecVal)),
        x ∈ (fun results container =>
          let record := fields.foldl (fun record f =>
            let values := containerFieldValues doc container f
            if 0 < values.length then
              jsObjSet record f.name
                (if values.length = 1 then RecVal.str (values.headD "")
                 else RecVal.list values)
            else record) ([] : List (String × RecVal))
          if 0 < record.length then results ++ [record] else results) acc c →
        x ∈ acc ∨ ∃ e ∈ x, recValNonEmpty e.2 = true := by
      intro acc c hc x hx
      simp only at hx
      split at hx
      · next hlen =>
        rcases List.mem_append.mp hx with h | h
        · exact Or.inl h
        · rcases List.mem_singleton.mp h with rfl
          obtain ⟨e, he⟩ := List.exists_mem_of_length_pos hlen
          exact Or.inr ⟨e, he, hrec c e he⟩
      · exact Or.inl hx
    rcases foldl_proj_mem_inv _ id _ containers step [] r hr with h | h
    · cases h
    · exact h
  · -- table-based
    intro doc fields r hr
    unfold extractFromTables at hr
    split at hr
    · cases hr
    · next table htab =>
      have hrec : ∀ (headers : List String) (cells : List (Nat × Nat)),
          ∀ e ∈ (cells.foldl (fun record cell =>
            let headerName := jsOrStr ((headers.get? cell.1).getD "")
              ("Column " ++ toString (cell.1 + 1))
            let value := jsTrim (doc.text cell.2)
            if value ≠ "" then jsObjSet record headerName value else record)
            ([] : List (String × String))),
          e.2 ≠ "" := by
        intro headers cells
        refine foldl_preserve
          (fun record : List (String × String) => ∀ e ∈ record, e.2 ≠ "") _ cells ?_ []
          (fun e he => (nomatch he))
        intro record cell hc hq
        simp only
        split
        · next hval =>
          exact jsObjSet_entries (fun v : String => v ≠ "") record _ _ hq hval
        · exact hq
      have step : ∀ acc, ∀ row ∈ doc.find table "tbody tr, tr",
          ∀ (x : List (String × String)),
          x ∈ (fun results row =>
            if 0 < (doc.find row "th").length then results
            else
              let cells := doc.find row "td"
              let record := cells.enum.foldl (fun record cell =>
                let headerName := jsOrStr
                  ((((doc.find table "th").map (fun el => jsTrim (doc.text el))).get?
                    cell.1).getD "")
                  ("Column " ++ toString (cell.1 + 1))
                let value := jsTrim (doc.text cell.2)
                if value ≠ "" then jsObjSet record headerName value else record)
                ([] : List (String × String))
              if 0 < record.length then results ++ [record] else results) acc row →
          x ∈ acc ∨ ∃ e ∈ x, e.2 ≠ "" := by
        intro acc row hrow x hx
        simp only at hx
        split at hx
        · exact Or.inl hx
        · split at hx
          · next hlen =>
            rcases List.mem_append.mp hx with h | h
            · exact Or.inl h
            · rcases List.mem_singleton.mp h with rfl
              obtain ⟨e, he⟩ := List.exists_mem_of_length_pos hlen
              exact Or.inr ⟨e, he, hrec _ _ e he⟩
          · exact Or.inl hx
      rcases foldl_proj_mem_inv _ id _ (doc.find table "tbody tr, tr") step [] r hr with
        h | h
      · cases h
      · exact h
  · -- list-based
    intro doc fields r hr
    unfold extractFromLists at hr
    have hrec : ∀ (item : Nat),
        ∀ e ∈ (fields.foldl (fun record f =>
          f.selectors.foldl (fun record selector =>
            let cleanSelector := cleanSelectorOf selector
            let elements := if jsIncludes selector " " then doc.find item cleanSelector
              else if doc.isMatch item cleanSelector then [item] else []
            elements.foldl (fun record el =>
              let value := if f.type = "image" then
                  jsOrStr ((doc.attr el "src").getD "") ((doc.attr el "alt").getD "")
                else if f.type = "link" then
                  jsOrStr ((doc.attr el "href").getD "") (jsTrim (doc.text el))
                else jsTrim (doc.text el)
              if value ≠ "" then jsObjSet record f.name value else record) record)
            record) ([] : List (String × String))),
        e.2 ≠ "" := by
      intro item
      refine foldl_preserve
        (fun record : List (String × String) => ∀ e ∈ record, e.2 ≠ "") _ fields ?_ []
        (fun e he => (nomatch he))
      intro record f hf hq
      refine foldl_preserve
        (fun record : List (String × String) => ∀ e ∈ record, e.2 ≠ "") _ f.selectors ?_
        record hq
      intro record2 selector hsel hq2
      refine foldl_preserve
        (fun record : List (String × String) => ∀ e ∈ record, e.2 ≠ "") _ _ ?_ record2 hq2
      intro record3 el hel hq3
      exact setIfNe_entries record3 f.name _ hq3
    have step : ∀ acc, ∀ item ∈ doc.query "ul li, ol li", ∀ (x : List (String × String)),
        x ∈ (fun results item =>
          let record := fields.foldl (fun record f =>
            f.selectors.foldl (fun record selector =>
              let cleanSelector := cleanSelectorOf selector
              let elements := if jsIncludes selector " " then doc.find item cleanSelector
                else if doc.isMatch item cleanSelector then [item] else []
              elements.foldl (fun record el =>
                let value := if f.type = "image" then
                    jsOrStr ((doc.attr el "src").getD "") ((doc.attr el "alt").getD "")
                  else if f.type = "link" then
                    jsOrStr ((doc.attr el "href").getD "") (jsTrim (doc.text el))
                  else jsTrim (doc.text el)
                if value ≠ "" then jsObjSet record f.name value else record) record)
              record) ([] : List (String × String))
          if 0 < record.length then results ++ [record] else results) acc item →
        x ∈ acc ∨ ∃ e ∈ x, e.2 ≠ "" := by
      intro acc item hitem x hx
      simp only at hx
      split at hx
      · next hlen =>
        rcases List.mem_append.mp hx with h | h
        · exact Or.inl h
        · rcases List.mem_singleton.mp h with rfl
          obtain ⟨e, he⟩ := List.exists_mem_of_length_pos hlen
          exact Or.inr ⟨e, he, hrec item e he⟩
      · exact Or.inl hx
    rcases foldl_proj_mem_inv _ id _ (doc.query "ul li, ol li") step [] r hr with h | h
    · cases h
    · exact h
  · -- individual/fallback
    intro doc fields r hr
    simp only [extractIndividually] at hr
    have hrecI : ∀ (fm : List (String × List String)) (i : Nat),
        (fun rh : List (String × String) × Bool =>
          (∀ e ∈ rh.1, e.2 ≠ "") ∧ (rh.2 = true → rh.1 ≠ []))
        (fields.foldl (fun rh f =>
          match jsObjGet fm f.name with
          | some values =>
            match values.get? i with
            | some v => if v ≠ "" then (jsObjSet rh.1 f.name v, true) else rh
            | none => rh
          | none => rh) (([] : List (String × String)), false)) := by
      intro fm i
      refine foldl_preserve (fun rh : List (String × String) × Bool =>
          (∀ e ∈ rh.1, e.2 ≠ "") ∧ (rh.2 = true → rh.1 ≠ [])) _ fields ?_ ([], false)
        ⟨fun e he => (nomatch he), fun h => by cases h⟩
      intro rh f hf hq
      split
      · split
        · split
          · next hv =>
            exact ⟨jsObjSet_entries (fun v : String => v ≠ "") rh.1 _ _ hq.1 hv,
              fun _ => jsObjSet_ne_nil _ _ _⟩
          · exact hq
        · exact hq
      · exact hq
    have step : ∀ (fm : List (String × List String)) acc (l : List Nat), ∀ i ∈ l,
        ∀ (x : List (String × String)),
        x ∈ (fun results i =>
          let rh := fields.foldl (fun rh f =>
            match jsObjGet fm f.name with
            | some values =>
              match values.get? i with
              | some v => if v ≠ "" then (jsObjSet rh.1 f.name v, true) else rh
              | none => rh
            | none => rh) (([] : List (String × String)), false)
          if rh.2 then results ++ [rh.1] else results) acc i →
        x ∈ acc ∨ ∃ e ∈ x, e.2 ≠ "" := by
      intro fm acc l i hi x hx
      simp only at hx
      split at hx
      · next htrue =>
        rcases List.mem_append.mp hx with h | h
        · exact Or.inl h
        · rcases List.mem_singleton.mp h with rfl
          obtain ⟨hent, hne⟩ := hrecI fm i
          obtain ⟨e, he⟩ := List.exists_mem_of_ne_nil _ (hne htrue)
          exact Or.inr ⟨e, he, hent e he⟩
      · exact Or.inl hx
    rcases foldl_proj_mem_inv (fun x : List (String × String) => ∃ e ∈ x, e.2 ≠ "")
      id _ (List.range _)
      (fun acc i hi x hx => step _ acc _ i hi x hx) [] r hr with h | h
    · cases h
    · exact h
